import Mathlib

/-!
Shallow embedding of the opentale_inventory container/stack mutation engine
(`src/world/inventory/*`, `src/utils/item_operations.rs`, `src/systems/drag.rs`,
`src/systems/inventory/drag.rs`, `src/systems/ui/slot_utils.rs`).

Conventions of the embedding:
* Rust `u32` counts are embedded as `Nat`; theorems whose Rust counterpart
  performs `u32` addition carry an explicit no-overflow bound where it matters.
  Rust `-` on `u32` only occurs where the code has established the subtrahend
  is not larger (or uses `saturating_sub`), which coincides with `Nat`
  subtraction.
* Functions that can panic in Rust (`unwrap` on a missing item,
  out-of-bounds `set_slot`) return `Option`; `none` models the panic.
* `&mut` parameters become explicit state passing: a Rust method mutating
  `self` and returning `r` becomes a Lean function returning `r` together
  with the updated values.
-/

set_option autoImplicit false

namespace Opentale

/-- `ItemProperties` from `src/world/item/item.rs` (durability is `u128`). -/
structure ItemProperties where
  max_stack_size : Nat
  durability : Option Nat
  is_consumable : Bool
  offhand_equipable : Bool
deriving DecidableEq, Repr

/-- `Item` from `src/world/item/item.rs`. -/
structure Item where
  identifier : String
  display_name : String
  properties : ItemProperties
deriving DecidableEq, Repr

/-- `ItemStack` from `src/world/inventory/item_stack.rs`. -/
structure ItemStack where
  item : Option Item
  size : Nat
deriving DecidableEq, Repr

namespace ItemStack

/-- `ItemStack::new`. -/
def new (item : Item) (size : Nat) : ItemStack :=
  { item := some item, size := size }

/-- `ItemStack::empty`. -/
def emptyStack : ItemStack :=
  { item := none, size := 0 }

/-- `ItemStack::can_merge_with`. The Rust code unwraps both items, panicking
when either is `None`; the panic is modelled as `none`. -/
def can_merge_with (s other : ItemStack) : Option Bool :=
  match s.item, other.item with
  | some si, some oi =>
      some (decide (s.item = other.item) && decide (si.identifier = oi.identifier)
        && decide (si.properties.max_stack_size = oi.properties.max_stack_size))
  | _, _ => none

/-- `ItemStack::try_merge`. Returns `(reported_success, self_after, other_after)`;
`none` models the panic of `can_merge_with` on a missing item. -/
def try_merge (s other : ItemStack) : Option (Bool × ItemStack × ItemStack) := do
  let mergeable ← s.can_merge_with other
  if !mergeable then
    pure (false, s, other)
  else
    match other.item with
    | none => none
    | some oi =>
        let combined_stack_size := s.size + other.size
        if combined_stack_size ≤ oi.properties.max_stack_size then
          pure (true, { s with size := 0 }, { other with size := combined_stack_size })
        else
          let available_space := oi.properties.max_stack_size - other.size
          let transferred_amount := min s.size available_space
          pure (false, { s with size := s.size - transferred_amount },
                { other with size := other.size + transferred_amount })

/-- `ItemStack::split_half`. Returns `(returned_half, self_after)`. -/
def split_half (s : ItemStack) : Option ItemStack × ItemStack :=
  if s.size ≤ 1 then
    (none, s)
  else
    let half := s.size / 2
    (some { item := s.item, size := half }, { s with size := s.size - half })

end ItemStack

/-- `Slot` from `src/world/inventory/inventory.rs`. -/
structure Slot where
  stack : Option ItemStack
deriving DecidableEq, Repr

namespace Slot

/-- `Slot::empty`. -/
def emptySlot : Slot := { stack := none }

end Slot

/-- `SlotContainer` from `src/world/inventory/inventory.rs`. -/
structure SlotContainer where
  slot_count : Nat
  slots : List Slot
deriving DecidableEq, Repr

namespace SlotContainer

/-- `SlotContainer::new`. -/
def new (slot_count : Nat) : SlotContainer :=
  { slot_count := slot_count, slots := List.replicate slot_count Slot.emptySlot }

/-- `SlotContainer::len` (the Rust code uses `self.slots.len()` via `len`). -/
def len (c : SlotContainer) : Nat := c.slots.length

/-- `SlotContainer::get_slot`: `self.slots.get(index)?.stack.as_ref()`. -/
def get_slot (c : SlotContainer) (index : Nat) : Option ItemStack :=
  (c.slots[index]?).bind Slot.stack

/-- `SlotContainer::set_slot`. `none` models the out-of-bounds panic. -/
def set_slot (c : SlotContainer) (index : Nat) (stack : Option ItemStack) :
    Option SlotContainer :=
  if index < c.slots.length then
    some { c with slots := c.slots.set index { stack := stack } }
  else
    none

/-- `SlotContainer::take_slot`: removes and returns the content of an
in-range slot, leaving it empty; out-of-range yields `(none, unchanged)`. -/
def take_slot (c : SlotContainer) (index : Nat) : Option ItemStack × SlotContainer :=
  match c.slots[index]? with
  | none => (none, c)
  | some sl => (sl.stack, { c with slots := c.slots.set index { stack := none } })

end SlotContainer

/-- `HeldItem` from `src/world/inventory/components.rs`. -/
structure HeldItem where
  stack : Option ItemStack
deriving DecidableEq, Repr

/-- `ContainerType` from `src/world/inventory/containers.rs`. -/
inductive ContainerType where
  | PlayerInventory
  | Hotbar
  | Chest (id : Nat)
deriving DecidableEq, Repr

/-- `UIMode` from `src/world/inventory/containers.rs`. -/
inductive UIMode where
  | HotbarOnly
  | InventoryOpen
  | ChestOpen (id : Nat)
deriving DecidableEq, Repr

/-- `ContainerPosition` from `src/world/inventory/containers.rs`. -/
inductive ContainerPosition where
  | Bottom
  | Center
  | Top
deriving DecidableEq, Repr

/-- `ContainerLayout` from `src/world/inventory/containers.rs`. -/
structure ContainerLayout where
  container_type : ContainerType
  slot_count : Nat
  rows : Nat
  columns : Nat
  title : String
  position : ContainerPosition
deriving DecidableEq, Repr

namespace ContainerLayout

/-- `ContainerLayout::player_inventory`. -/
def player_inventory : ContainerLayout :=
  { container_type := ContainerType.PlayerInventory, slot_count := 27, rows := 3,
    columns := 9, title := "Inventory", position := ContainerPosition.Center }

/-- `ContainerLayout::hotbar`. -/
def hotbar : ContainerLayout :=
  { container_type := ContainerType.Hotbar, slot_count := 9, rows := 1,
    columns := 9, title := "", position := ContainerPosition.Bottom }

/-- `ContainerLayout::chest`. -/
def chest (chest_id : Nat) : ContainerLayout :=
  { container_type := ContainerType.Chest chest_id, slot_count := 27, rows := 3,
    columns := 9, title := "Chest " ++ toString chest_id, position := ContainerPosition.Top }

end ContainerLayout

/-- `ContainerManager` from `src/world/inventory/containers.rs`; the
`HashMap<ContainerType, SlotContainer>` is embedded as a partial map. -/
structure ContainerManager where
  containers : ContainerType → Option SlotContainer
  ui_mode : UIMode
  layouts : List ContainerLayout
  available_chests : List Nat
  active_chest_id : Option Nat

namespace ContainerManager

/-- `HashMap::insert` on the embedded map. -/
def insert_container (m : ContainerType → Option SlotContainer)
    (t : ContainerType) (c : SlotContainer) : ContainerType → Option SlotContainer :=
  fun t' => if t' = t then some c else m t'

/-- `ContainerManager::default`: player inventory, hotbar, and the initial
chests 1, 2, 3 are created eagerly at construction. -/
def defaultManager : ContainerManager :=
  let m0 : ContainerType → Option SlotContainer := fun _ => none
  let m1 := insert_container m0 ContainerType.PlayerInventory (SlotContainer.new 27)
  let m2 := insert_container m1 ContainerType.Hotbar (SlotContainer.new 9)
  let available_chests : List Nat := [1, 2, 3]
  let m3 := available_chests.foldl
    (fun m chest_id => insert_container m (ContainerType.Chest chest_id) (SlotContainer.new 27)) m2
  { containers := m3
    ui_mode := UIMode.HotbarOnly
    layouts := [ContainerLayout.hotbar]
    available_chests := available_chests
    active_chest_id := none }

/-- `ContainerManager::open_inventory`. -/
def open_inventory (cm : ContainerManager) : ContainerManager :=
  { cm with
    ui_mode := UIMode.InventoryOpen
    layouts := [ContainerLayout.player_inventory, ContainerLayout.hotbar] }

/-- `ContainerManager::close_inventory`. -/
def close_inventory (cm : ContainerManager) : ContainerManager :=
  { cm with ui_mode := UIMode.HotbarOnly, layouts := [ContainerLayout.hotbar] }

/-- `ContainerManager::open_chest`: creates the chest's container (and
registers its id) on first use, then switches the UI mode. -/
def open_chest (cm : ContainerManager) (chest_id : Nat) : ContainerManager :=
  let chest_type := ContainerType.Chest chest_id
  let cm :=
    if (cm.containers chest_type).isSome then
      cm
    else
      { cm with
        containers := insert_container cm.containers chest_type (SlotContainer.new 27)
        available_chests :=
          if chest_id ∈ cm.available_chests then cm.available_chests
          else cm.available_chests ++ [chest_id] }
  { cm with
    active_chest_id := some chest_id
    ui_mode := UIMode.ChestOpen chest_id
    layouts := [ContainerLayout.chest chest_id, ContainerLayout.player_inventory,
      ContainerLayout.hotbar] }

/-- `ContainerManager::close_chest`. -/
def close_chest (cm : ContainerManager) : ContainerManager :=
  { cm with
    active_chest_id := none
    ui_mode := UIMode.HotbarOnly
    layouts := [ContainerLayout.hotbar] }

/-- `ContainerManager::switch_chest`. -/
def switch_chest (cm : ContainerManager) (chest_id : Nat) : ContainerManager :=
  if chest_id ∈ cm.available_chests then cm.open_chest chest_id else cm

/-- `ContainerManager::get_container`. -/
def get_container (cm : ContainerManager) (t : ContainerType) : Option SlotContainer :=
  cm.containers t

/-- Write-back of a mutation performed through `get_container_mut`. -/
def update_container (cm : ContainerManager) (t : ContainerType) (c : SlotContainer) :
    ContainerManager :=
  { cm with containers := insert_container cm.containers t c }

/-- Content of one addressed slot, as seen through `get_container` +
`get_slot` (used to state frame properties). -/
def slot_at (cm : ContainerManager) (t : ContainerType) (index : Nat) : Option ItemStack :=
  match cm.get_container t with
  | some c => c.get_slot index
  | none => none

end ContainerManager

/-! Click resolution, `src/utils/item_operations.rs`.  Each function takes the
slot container and held item by `&mut` in Rust; here it returns the updated
pair, with `none` modelling a panic (missing-item `unwrap`, or an
out-of-bounds `set_slot`). -/

/-- `process_left_click` from `src/utils/item_operations.rs`. -/
def process_left_click (slot_index : Nat) (inventory : SlotContainer)
    (held_item : HeldItem) : Option (SlotContainer × HeldItem) :=
  let taken := inventory.take_slot slot_index
  let inv := taken.2
  match held_item.stack, taken.1 with
  | none, some stack => some (inv, { stack := some stack })
  | some held_stack, some clicked_stack => do
      let mergeable ← held_stack.can_merge_with clicked_stack
      if mergeable then do
        let (fully_merged, held', clicked') ← held_stack.try_merge clicked_stack
        let inv' ← inv.set_slot slot_index (some clicked')
        if fully_merged then
          pure (inv', { stack := none })
        else
          pure (inv', { stack := some held' })
      else do
        let inv' ← inv.set_slot slot_index (some held_stack)
        pure (inv', { stack := some clicked_stack })
  | some held_stack, none => do
      let inv' ← inv.set_slot slot_index (some held_stack)
      pure (inv', { stack := none })
  | none, none => some (inv, held_item)

/-- `process_right_click` from `src/utils/item_operations.rs`. -/
def process_right_click (slot_index : Nat) (inventory : SlotContainer)
    (held_item : HeldItem) : Option (SlotContainer × HeldItem) :=
  match held_item.stack, inventory.get_slot slot_index with
  | none, some slot_stack =>
      match slot_stack.split_half with
      | (some half_stack, rest) => do
          let inv' ← inventory.set_slot slot_index (some rest)
          pure (inv', { stack := some half_stack })
      | (none, _) =>
          let taken := inventory.take_slot slot_index
          some (taken.2, { stack := taken.1 })
  | some held_stack, some slot_stack => do
      let mergeable ← held_stack.can_merge_with slot_stack
      if mergeable && decide (held_stack.size > 0) then
        match slot_stack.item with
        | none => none
        | some si =>
            if slot_stack.size < si.properties.max_stack_size then do
              let held' : ItemStack := { held_stack with size := held_stack.size - 1 }
              let inv' ← inventory.set_slot slot_index
                (some { slot_stack with size := slot_stack.size + 1 })
              if held'.size = 0 then
                pure (inv', { stack := none })
              else
                pure (inv', { stack := some held' })
            else
              pure (inventory, held_item)
      else
        pure (inventory, held_item)
  | some held_stack, none =>
      if held_stack.size > 1 then do
        let hi ← held_stack.item
        let inv' ← inventory.set_slot slot_index (some (ItemStack.new hi 1))
        pure (inv', { stack := some { held_stack with size := held_stack.size - 1 } })
      else do
        let inv' ← inventory.set_slot slot_index (some held_stack)
        pure (inv', { stack := none })
  | none, none => some (inventory, held_item)

/-- `deposit_single_item` from `src/utils/item_operations.rs`. -/
def deposit_single_item (slot_index : Nat) (container : SlotContainer)
    (held_item : HeldItem) : Option (SlotContainer × HeldItem) :=
  match held_item.stack with
  | none => some (container, held_item)
  | some held_stack =>
      if held_stack.size = 0 then
        some (container, { stack := none })
      else
        match container.get_slot slot_index with
        | none => do
            let held' : ItemStack := { held_stack with size := held_stack.size - 1 }
            let hi ← held_stack.item
            let container' ← container.set_slot slot_index (some (ItemStack.new hi 1))
            if held'.size = 0 then
              pure (container', { stack := none })
            else
              pure (container', { stack := some held' })
        | some slot_stack => do
            let mergeable ← held_stack.can_merge_with slot_stack
            if mergeable then
              match slot_stack.item with
              | none => none
              | some si =>
                  if slot_stack.size < si.properties.max_stack_size then do
                    let held' : ItemStack := { held_stack with size := held_stack.size - 1 }
                    let container' ← container.set_slot slot_index
                      (some { slot_stack with size := slot_stack.size + 1 })
                    if held'.size = 0 then
                      pure (container', { stack := none })
                    else
                      pure (container', { stack := some held' })
                  else
                    pure (container, held_item)
            else
              pure (container, held_item)

/-- `place_stack_in_slot` from `src/utils/item_operations.rs`. Returns the
leftover stack (if any) together with the updated container. -/
def place_stack_in_slot (container : SlotContainer) (slot_index : Nat)
    (stack : ItemStack) : Option (Option ItemStack × SlotContainer) :=
  match container.get_slot slot_index with
  | none => do
      let container' ← container.set_slot slot_index (some stack)
      pure (none, container')
  | some existing_stack => do
      let mergeable ← stack.can_merge_with existing_stack
      if mergeable then
        match existing_stack.item with
        | none => none
        | some ei => do
            let max_size := ei.properties.max_stack_size
            let available_space := max_size - existing_stack.size
            let to_add := min available_space stack.size
            let container' ← container.set_slot slot_index
              (some { existing_stack with size := existing_stack.size + to_add })
            if to_add = stack.size then
              pure (none, container')
            else do
              let si ← stack.item
              pure (some (ItemStack.new si (stack.size - to_add)), container')
      else
        pure (some stack, container)

/-- The per-slot predicate of `filter_valid_distribution_slots`
(`src/utils/item_operations.rs`): an empty slot is always valid; an occupied
one is valid when mergeable with the held stack and strictly below its max. -/
def valid_distribution_slot (held_stack : ItemStack) (cm : ContainerManager)
    (s : ContainerType × Nat) : Option Bool :=
  match cm.get_container s.1 with
  | none => some false
  | some container =>
      match container.get_slot s.2 with
      | none => some true
      | some existing_stack => do
          let mergeable ← held_stack.can_merge_with existing_stack
          if mergeable then
            match existing_stack.item with
            | none => none
            | some ei =>
                pure (decide (existing_stack.size < ei.properties.max_stack_size))
          else
            pure false

/-- `filter_valid_distribution_slots` from `src/utils/item_operations.rs`. -/
def filter_valid_distribution_slots (slots : List (ContainerType × Nat))
    (held_stack : ItemStack) (cm : ContainerManager) :
    Option (List (ContainerType × Nat)) :=
  match slots with
  | [] => some []
  | s :: rest => do
      let keep ← valid_distribution_slot held_stack cm s
      let rest' ← filter_valid_distribution_slots rest held_stack cm
      pure (if keep then s :: rest' else rest')

/-- Modelled from the spec: the `DragState` resource (its struct definition is
not present in the sources, only its users are).  The spec describes the
ordered list of slots visited during the active left drag (insertion order,
no duplicates) and the pickup slot the held stack was lifted from; only the
fields read by the drag-resolution code are modelled. -/
structure DragState where
  left_drag_slots : List (ContainerType × Nat)
  pickup_slot : Option (ContainerType × Nat)
deriving DecidableEq, Repr

/-- `filter_out_pickup_slot` from `src/systems/ui/slot_utils.rs`: drop the
pickup slot from the valid targets unless doing so would leave none. -/
def filter_out_pickup_slot (valid_slots : List (ContainerType × Nat))
    (pickup_slot : Option (ContainerType × Nat)) : List (ContainerType × Nat) :=
  match pickup_slot with
  | some p =>
      let non_pickup_slots := valid_slots.filter (fun s => decide (s ≠ p))
      if non_pickup_slots ≠ [] then non_pickup_slots else valid_slots
  | none => valid_slots

/-- `get_filtered_distribution_slots` from `src/systems/inventory/drag.rs`
(the pickup-slot step is the same logic as `filter_out_pickup_slot`, inlined
there and in `src/systems/drag.rs`). -/
def get_filtered_distribution_slots (drag_state : DragState)
    (held_stack : ItemStack) (cm : ContainerManager) :
    Option (List (ContainerType × Nat)) := do
  let valid_slots ← filter_valid_distribution_slots drag_state.left_drag_slots held_stack cm
  pure (filter_out_pickup_slot valid_slots drag_state.pickup_slot)

/-- `calculate_item_distribution` from `src/systems/inventory/drag.rs`:
`(items_per_slot, remainder)` of the even split. -/
def calculate_item_distribution (total_items slot_count : Nat) : Nat × Nat :=
  (total_items / slot_count, total_items % slot_count)

/-- The per-target amount of the distribution loop in `execute_distribution`
(`src/systems/inventory/drag.rs`) and `distribute_items_evenly`
(`src/systems/drag.rs`): the first `remainder` targets get one extra item. -/
def items_for_slot (items_per_slot remainder i : Nat) : Nat :=
  if i < remainder then items_per_slot + 1 else items_per_slot

/-- The `enumerate` loop of `execute_distribution`
(`src/systems/inventory/drag.rs`): walk the valid targets in order, place
each target's amount via `place_stack_in_slot`, and accumulate what was
actually placed.  Targets whose container lookup fails are skipped but still
consume their enumeration index. -/
def execute_distribution_aux (cm : ContainerManager) (held_stack : ItemStack)
    (valid_slots : List (ContainerType × Nat)) (items_per_slot remainder i : Nat) :
    Option (Nat × ContainerManager) :=
  match valid_slots with
  | [] => some (0, cm)
  | (container_type, slot_index) :: rest =>
      match cm.get_container container_type with
      | none => execute_distribution_aux cm held_stack rest items_per_slot remainder (i + 1)
      | some container =>
          let items_for_this_slot := items_for_slot items_per_slot remainder i
          if items_for_this_slot > 0 then do
            let hi ← held_stack.item
            let (leftover, container') ←
              place_stack_in_slot container slot_index (ItemStack.new hi items_for_this_slot)
            let actually_placed :=
              items_for_this_slot - (leftover.map ItemStack.size).getD 0
            let (rest_placed, cm') ← execute_distribution_aux
              (cm.update_container container_type container') held_stack rest
              items_per_slot remainder (i + 1)
            pure (actually_placed + rest_placed, cm')
          else
            execute_distribution_aux cm held_stack rest items_per_slot remainder (i + 1)

/-- `execute_distribution` from `src/systems/inventory/drag.rs`. -/
def execute_distribution (cm : ContainerManager) (held_stack : ItemStack)
    (valid_slots : List (ContainerType × Nat)) (distribution : Nat × Nat) :
    Option (Nat × ContainerManager) :=
  execute_distribution_aux cm held_stack valid_slots distribution.1 distribution.2 0

/-- `update_held_item_after_distribution` from `src/systems/inventory/drag.rs`:
the held stack's count becomes the shortfall `total_items - total_distributed`,
and the held item is cleared when everything was distributed. -/
def update_held_item_after_distribution (held_item : HeldItem)
    (total_items total_distributed : Nat) : HeldItem :=
  if total_distributed ≥ total_items then
    { stack := none }
  else
    match held_item.stack with
    | some held_stack =>
        if total_items - total_distributed = 0 then
          { stack := none }
        else
          { stack := some { held_stack with size := total_items - total_distributed } }
    | none => { stack := none }

/-- `distribute_items_evenly` from `src/systems/inventory/drag.rs`
(equivalent to the inline version in `src/systems/drag.rs`). -/
def distribute_items_evenly (cm : ContainerManager) (held_item : HeldItem)
    (drag_state : DragState) : Option (ContainerManager × HeldItem) :=
  match held_item.stack with
  | none => some (cm, held_item)
  | some held_stack => do
      let total_items := held_stack.size
      let valid_slots ← get_filtered_distribution_slots drag_state held_stack cm
      if valid_slots.isEmpty then
        pure (cm, held_item)
      else do
        let distribution := calculate_item_distribution total_items valid_slots.length
        let (total_distributed, cm') ← execute_distribution cm held_stack valid_slots distribution
        pure (cm', update_held_item_after_distribution held_item total_items total_distributed)

/-- `process_drag_end` from `src/systems/inventory/drag.rs`: no visited slot
keeps the held item; one visited slot resolves as a left click; more perform
even distribution. -/
def process_drag_end (cm : ContainerManager) (held_item : HeldItem)
    (drag_state : DragState) : Option (ContainerManager × HeldItem) :=
  match held_item.stack with
  | none => some (cm, held_item)
  | some _ =>
      match drag_state.left_drag_slots with
      | [] => some (cm, held_item)
      | [(container_type, slot_index)] =>
          match cm.get_container container_type with
          | none => some (cm, held_item)
          | some container => do
              let (container', held') ← process_left_click slot_index container held_item
              pure (cm.update_container container_type container', held')
      | _ => distribute_items_evenly cm held_item drag_state

/-- The UI-mode transition surface of the `ContainerManager`
(`open_inventory`, `close_inventory`, `open_chest`, `close_chest`,
`switch_chest`), reified as a trace alphabet to state which containers exist
after any sequence of calls. -/
inductive ManagerOp where
  | open_inventory
  | close_inventory
  | open_chest (chest_id : Nat)
  | close_chest
  | switch_chest (chest_id : Nat)
deriving DecidableEq, Repr

/-- Apply one manager call. -/
def applyOp (cm : ContainerManager) (op : ManagerOp) : ContainerManager :=
  match op with
  | ManagerOp.open_inventory => cm.open_inventory
  | ManagerOp.close_inventory => cm.close_inventory
  | ManagerOp.open_chest chest_id => cm.open_chest chest_id
  | ManagerOp.close_chest => cm.close_chest
  | ManagerOp.switch_chest chest_id => cm.switch_chest chest_id

/-- Run a sequence of manager calls from a starting state. -/
def runOps (cm : ContainerManager) (ops : List ManagerOp) : ContainerManager :=
  ops.foldl applyOp cm

/-! Concrete item kinds used by the witnesses. -/

/-- A stackable test item (max stack size 64, like the repository's apple). -/
def testApple : Item :=
  { identifier := "apple", display_name := "Apple"
    properties := { max_stack_size := 64, durability := none
                    is_consumable := true, offhand_equipable := false } }

/-- A non-stackable test item (max stack size 1). -/
def testSword : Item :=
  { identifier := "sword", display_name := "Sword"
    properties := { max_stack_size := 1, durability := some 100
                    is_consumable := false, offhand_equipable := false } }

/-! ### Basic container lemmas -/

theorem List.set_self_of_getElem? {α : Type} (l : List α) (i : Nat) (x : α)
    (h : l[i]? = some x) : l.set i x = l := by
  induction l generalizing i with
  | nil => simp at h
  | cons y ys ih =>
      cases i with
      | zero =>
          simp at h
          simp [h]
      | succ n =>
          simp at h
          simp [List.set, ih n h]

theorem get_slot_isSome_lt (c : SlotContainer) (i : Nat) (s : ItemStack)
    (h : c.get_slot i = some s) : i < c.slots.length := by
  by_contra hge
  have : c.slots[i]? = none := by
    simp [List.getElem?_eq_none (by omega : c.slots.length ≤ i)]
  simp [SlotContainer.get_slot, this] at h

theorem take_slot_of_get_some (c : SlotContainer) (i : Nat) (s : ItemStack)
    (h : c.get_slot i = some s) :
    c.take_slot i = (some s, { c with slots := c.slots.set i { stack := none } }) := by
  unfold SlotContainer.take_slot
  unfold SlotContainer.get_slot at h
  cases hsl : c.slots[i]? with
  | none => simp [hsl] at h
  | some sl =>
      simp [hsl] at h ⊢
      exact h

theorem take_slot_of_get_none (c : SlotContainer) (i : Nat)
    (hin : i < c.slots.length) (h : c.get_slot i = none) :
    c.take_slot i = (none, c) := by
  unfold SlotContainer.take_slot
  unfold SlotContainer.get_slot at h
  cases hsl : c.slots[i]? with
  | none =>
      simp [List.getElem?_eq_none_iff] at hsl
      omega
  | some sl =>
      simp [hsl] at h
      have hsleq : sl = { stack := none } := by
        cases sl
        simp_all
      subst hsleq
      simp [List.set_self_of_getElem? c.slots i _ hsl]

theorem set_slot_of_lt (c : SlotContainer) (i : Nat) (st : Option ItemStack)
    (h : i < c.slots.length) :
    c.set_slot i st = some { c with slots := c.slots.set i { stack := st } } := by
  simp [SlotContainer.set_slot, h]

theorem get_slot_set_self (c : SlotContainer) (i : Nat) (st : Option ItemStack)
    (h : i < c.slots.length) :
    SlotContainer.get_slot { c with slots := c.slots.set i { stack := st } } i = st := by
  simp [SlotContainer.get_slot, List.getElem?_set_eq_of_lt _ h]

theorem get_slot_set_ne (c : SlotContainer) (i j : Nat) (st : Option ItemStack)
    (h : j ≠ i) :
    SlotContainer.get_slot { c with slots := c.slots.set i { stack := st } } j
      = c.get_slot j := by
  simp [SlotContainer.get_slot, List.getElem?_set_ne (fun he => h he.symm)]

/-! ### C6: `split_half` -/

/-- C6: for a stack with count `n`, `split_half` is a no-op returning nothing
when `n ≤ 1`; when `n > 1` it returns a new stack of the same kind with
`⌊n/2⌋` units and leaves `⌈n/2⌉` units on the original. -/
theorem C6_split_half (s : ItemStack) :
    (s.size ≤ 1 → s.split_half = (none, s)) ∧
    (1 < s.size →
      s.split_half.1 = some { item := s.item, size := s.size / 2 } ∧
      (s.split_half.2).item = s.item ∧
      (s.split_half.2).size = (s.size + 1) / 2) := by
  constructor
  · intro h
    simp [ItemStack.split_half, h]
  · intro h
    have h2 : ¬ s.size ≤ 1 := by omega
    refine ⟨?_, ?_, ?_⟩ <;> simp [ItemStack.split_half, h2]
    omega

/-- Witness for C6 at count 5: the split returns 2 and keeps 3. -/
theorem C6_split_half_witness :
    (ItemStack.new testApple 5).split_half.1 = some { item := some testApple, size := 2 } ∧
    ((ItemStack.new testApple 5).split_half.2).size = 3 ∧
    (ItemStack.new testApple 1).split_half = (none, ItemStack.new testApple 1) := by
  have h := (C6_split_half (ItemStack.new testApple 5)).2 (by decide)
  have h1 := (C6_split_half (ItemStack.new testApple 1)).1 (by decide)
  exact ⟨h.1, by simpa using h.2.2, h1⟩

/-! ### C5: `try_merge` -/

/-- C5: merging mergeable stacks `A` (count `a`) into `B` (count `b`) with
shared capacity `c` leaves `B.count = min (a+b) c` and `A.count` the
overflow, conserves the total, never exceeds the capacity on `B`, and
reports full success exactly when `a + b ≤ c` (in which case `A` is left
with 0 units).  The `u32` additions of the source are embedded as `Nat`;
the bound `a + b < 2^32` marks the overflow-free domain. -/
theorem C5_try_merge_conservation (a b : ItemStack) (i : Item)
    (hm : a.can_merge_with b = some true)
    (hbi : b.item = some i)
    (_hac : a.size ≤ i.properties.max_stack_size)
    (hbc : b.size ≤ i.properties.max_stack_size)
    (_hnof : a.size + b.size < 4294967296) :
    ∃ ok a' b', a.try_merge b = some (ok, a', b') ∧
      b'.size = min (a.size + b.size) i.properties.max_stack_size ∧
      a'.size = a.size + b.size - min (a.size + b.size) i.properties.max_stack_size ∧
      a'.size + b'.size = a.size + b.size ∧
      b'.size ≤ i.properties.max_stack_size ∧
      (ok = true ↔ a.size + b.size ≤ i.properties.max_stack_size) ∧
      (ok = true → a'.size = 0) := by
  by_cases hc : a.size + b.size ≤ i.properties.max_stack_size
  · refine ⟨true, { a with size := 0 }, { b with size := a.size + b.size },
      by simp [ItemStack.try_merge, hm, hbi, hc], ?_, ?_, ?_, ?_, ?_, ?_⟩
    · show a.size + b.size = min (a.size + b.size) i.properties.max_stack_size
      omega
    · show (0 : Nat) = a.size + b.size - min (a.size + b.size) i.properties.max_stack_size
      omega
    · show 0 + (a.size + b.size) = a.size + b.size
      omega
    · exact hc
    · simp [hc]
    · intro _
      rfl
  · refine ⟨false, { a with size := a.size - min a.size (i.properties.max_stack_size - b.size) },
      { b with size := b.size + min a.size (i.properties.max_stack_size - b.size) },
      by simp [ItemStack.try_merge, hm, hbi, hc], ?_, ?_, ?_, ?_, ?_, ?_⟩
    · show b.size + min a.size (i.properties.max_stack_size - b.size)
        = min (a.size + b.size) i.properties.max_stack_size
      omega
    · show a.size - min a.size (i.properties.max_stack_size - b.size)
        = a.size + b.size - min (a.size + b.size) i.properties.max_stack_size
      omega
    · show a.size - min a.size (i.properties.max_stack_size - b.size)
        + (b.size + min a.size (i.properties.max_stack_size - b.size)) = a.size + b.size
      omega
    · show b.size + min a.size (i.properties.max_stack_size - b.size)
        ≤ i.properties.max_stack_size
      omega
    · simp [hc]
    · intro h
      simp at h

/-- Witness for C5: 10 apples merged into 60 (max 64) yields a partial merge
with 64 in the target and 6 left, conserving 70 units. -/
theorem C5_try_merge_conservation_witness :
    ∃ ok a' b',
      (ItemStack.new testApple 10).try_merge (ItemStack.new testApple 60) = some (ok, a', b') ∧
      b'.size = 64 ∧
      a'.size = 6 ∧
      a'.size + b'.size = 70 ∧
      b'.size ≤ 64 ∧
      (ok = true ↔ (70 : Nat) ≤ 64) ∧
      (ok = true → a'.size = 0) := by
  exact C5_try_merge_conservation (ItemStack.new testApple 10)
    (ItemStack.new testApple 60) testApple (by decide) rfl
    (by decide) (by decide) (by decide)

/-! ### C9: `set_slot` -/

/-- C9: `set_slot` fails fatally (modelled by `none`) exactly when the index
is at least the slot count; on an in-range index it succeeds, overwrites that
slot with exactly the given value, and leaves every other slot unchanged.
`slot_count = slots.length` holds for every container the code constructs. -/
theorem C9_set_slot (c : SlotContainer) (index : Nat) (stack : Option ItemStack)
    (hwf : c.slot_count = c.slots.length) :
    (c.set_slot index stack = none ↔ c.slot_count ≤ index) ∧
    (index < c.slot_count →
      ∃ c', c.set_slot index stack = some c' ∧
        c'.get_slot index = stack ∧
        c'.slot_count = c.slot_count ∧
        c'.slots.length = c.slots.length ∧
        ∀ j, j ≠ index → c'.get_slot j = c.get_slot j) := by
  constructor
  · constructor
    · intro h
      by_contra hlt
      simp [SlotContainer.set_slot, show index < c.slots.length by omega] at h
    · intro h
      simp [SlotContainer.set_slot, show ¬ index < c.slots.length by omega]
  · intro h
    have hlen : index < c.slots.length := by omega
    refine ⟨{ c with slots := c.slots.set index { stack := stack } }, ?_, ?_, rfl, ?_, ?_⟩
    · simp [SlotContainer.set_slot, hlen]
    · simp [SlotContainer.get_slot, List.getElem?_set_eq_of_lt _ hlen]
    · simp
    · intro j hj
      simp [SlotContainer.get_slot, List.getElem?_set_ne (fun he => hj he.symm)]

/-- Witness for C9 on a fresh 2-slot container: index 5 fails, index 0
overwrites slot 0 and leaves slot 1 unchanged. -/
theorem C9_set_slot_witness :
    (SlotContainer.new 2).set_slot 5 none = none ∧
    ∃ c', (SlotContainer.new 2).set_slot 0 (some (ItemStack.new testApple 3)) = some c' ∧
      c'.get_slot 0 = some (ItemStack.new testApple 3) ∧
      c'.get_slot 1 = (SlotContainer.new 2).get_slot 1 := by
  refine ⟨((C9_set_slot (SlotContainer.new 2) 5 none (by decide)).1).mpr (by decide), ?_⟩
  obtain ⟨c', h1, h2, _, _, h5⟩ :=
    (C9_set_slot (SlotContainer.new 2) 0 (some (ItemStack.new testApple 3)) (by decide)).2
      (by decide)
  exact ⟨c', h1, h2, h5 1 (by decide)⟩

/-! ### C3: `process_left_click` -/

/-- C3: the five-case left-click behaviour.  Pick up from an occupied slot
with an empty cursor; merge mergeable stacks (cursor emptied on a full
merge, otherwise it keeps exactly the overflow and the slot is maxed); swap
non-mergeable stacks; place the held stack into an empty slot; and do
nothing when both are empty. -/
theorem C3_process_left_click (index : Nat) (inv : SlotContainer)
    (hin : index < inv.slots.length) :
    (∀ s, inv.get_slot index = some s →
      ∃ inv', process_left_click index inv { stack := none } = some (inv', { stack := some s }) ∧
        inv'.get_slot index = none ∧
        ∀ j, j ≠ index → inv'.get_slot j = inv.get_slot j) ∧
    (∀ hs cs i, inv.get_slot index = some cs →
      hs.can_merge_with cs = some true →
      cs.item = some i → cs.size ≤ i.properties.max_stack_size →
      ∃ inv' held', process_left_click index inv { stack := some hs } = some (inv', held') ∧
        (hs.size + cs.size ≤ i.properties.max_stack_size →
          held' = { stack := none } ∧
          inv'.get_slot index = some { cs with size := hs.size + cs.size }) ∧
        (i.properties.max_stack_size < hs.size + cs.size →
          held' = { stack := some { hs with size := hs.size + cs.size - i.properties.max_stack_size } } ∧
          inv'.get_slot index = some { cs with size := i.properties.max_stack_size }) ∧
        ∀ j, j ≠ index → inv'.get_slot j = inv.get_slot j) ∧
    (∀ hs cs, inv.get_slot index = some cs →
      hs.can_merge_with cs = some false →
      ∃ inv', process_left_click index inv { stack := some hs }
          = some (inv', { stack := some cs }) ∧
        inv'.get_slot index = some hs ∧
        ∀ j, j ≠ index → inv'.get_slot j = inv.get_slot j) ∧
    (∀ hs, inv.get_slot index = none →
      ∃ inv', process_left_click index inv { stack := some hs }
          = some (inv', { stack := none }) ∧
        inv'.get_slot index = some hs ∧
        ∀ j, j ≠ index → inv'.get_slot j = inv.get_slot j) ∧
    (inv.get_slot index = none →
      process_left_click index inv { stack := none } = some (inv, { stack := none })) := by
  refine ⟨?_, ?_, ?_, ?_, ?_⟩
  · intro s hs
    refine ⟨{ inv with slots := inv.slots.set index { stack := none } }, ?_, ?_, ?_⟩
    · simp [process_left_click, take_slot_of_get_some inv index s hs]
    · exact get_slot_set_self inv index none hin
    · intro j hj
      exact get_slot_set_ne inv index j none hj
  · intro hs cs i hget hm hci hcap
    by_cases hfit : hs.size + cs.size ≤ i.properties.max_stack_size
    · refine ⟨{ inv with slots := inv.slots.set index { stack := some { cs with size := hs.size + cs.size } } }, { stack := none }, ?_, ?_, ?_, ?_⟩
      · simp [process_left_click, take_slot_of_get_some inv index cs hget, hm,
          ItemStack.try_merge, hci, hfit, SlotContainer.set_slot,
          List.length_set, hin, List.set_set]
      · intro _
        exact ⟨rfl, get_slot_set_self inv index _ hin⟩
      · intro hlt
        omega
      · intro j hj
        exact get_slot_set_ne inv index j _ hj
    · refine ⟨{ inv with slots := inv.slots.set index { stack := some { cs with size := cs.size + min hs.size (i.properties.max_stack_size - cs.size) } } }, { stack := some { hs with size := hs.size - min hs.size (i.properties.max_stack_size - cs.size) } }, ?_, ?_, ?_, ?_⟩
      · simp [process_left_click, take_slot_of_get_some inv index cs hget, hm,
          ItemStack.try_merge, hci, hfit, SlotContainer.set_slot,
          List.length_set, hin, List.set_set]
      · intro hle
        omega
      · intro hlt
        have h1 : cs.size + min hs.size (i.properties.max_stack_size - cs.size)
            = i.properties.max_stack_size := by omega
        have h2 : hs.size - min hs.size (i.properties.max_stack_size - cs.size)
            = hs.size + cs.size - i.properties.max_stack_size := by omega
        refine ⟨by rw [h2], ?_⟩
        rw [h1]
        exact get_slot_set_self inv index _ hin
      · intro j hj
        exact get_slot_set_ne inv index j _ hj
  · intro hs cs hget hm
    refine ⟨{ inv with slots := inv.slots.set index { stack := some hs } }, ?_, ?_, ?_⟩
    · simp [process_left_click, take_slot_of_get_some inv index cs hget, hm,
        SlotContainer.set_slot, List.length_set, hin, List.set_set]
    · exact get_slot_set_self inv index _ hin
    · intro j hj
      exact get_slot_set_ne inv index j _ hj
  · intro hs hget
    refine ⟨{ inv with slots := inv.slots.set index { stack := some hs } }, ?_, ?_, ?_⟩
    · simp [process_left_click, take_slot_of_get_none inv index hin hget,
        SlotContainer.set_slot, hin]
    · exact get_slot_set_self inv index _ hin
    · intro j hj
      exact get_slot_set_ne inv index j _ hj
  · intro hget
    simp [process_left_click, take_slot_of_get_none inv index hin hget]

/-- Witness for C3 at spec scenario values: a held stack of 10 apples
left-clicked onto a slot of 60 apples (max 64) fills the slot to 64 and
keeps 6 on the cursor. -/
theorem C3_process_left_click_witness :
    ∃ inv' held',
      process_left_click 0
        { slot_count := 1, slots := [{ stack := some (ItemStack.new testApple 60) }] }
        { stack := some (ItemStack.new testApple 10) } = some (inv', held') ∧
      held' = { stack := some { item := some testApple, size := 6 } } ∧
      inv'.get_slot 0 = some { item := some testApple, size := 64 } := by
  obtain ⟨inv', held', hrun, _, hover, _⟩ :=
    (C3_process_left_click 0
      { slot_count := 1, slots := [{ stack := some (ItemStack.new testApple 60) }] }
      (by decide)).2.1
      (ItemStack.new testApple 10) (ItemStack.new testApple 60) testApple
      rfl (by decide) rfl (by decide)
  obtain ⟨hheld, hslot⟩ := hover (by decide)
  exact ⟨inv', held', hrun, by simpa using hheld, by simpa using hslot⟩


/-! ### C4: `process_right_click` -/

/-- C4: right-click behaviour.  Empty cursor on a stack of more than one
splits off the floor half to the cursor; on a single unit it takes the whole
stack.  A held stack over a mergeable slot below its max transfers exactly
one unit (cursor emptied when its count reaches zero); a mergeable slot at
max and a non-mergeable slot are no-ops (never a swap).  A held stack over
an empty slot places one unit (decrementing the cursor) when the held count
exceeds one, and places the entire stack (emptying the cursor) when the held
count is exactly one. -/
theorem C4_process_right_click (index : Nat) (inv : SlotContainer)
    (hin : index < inv.slots.length) :
    (∀ cs, inv.get_slot index = some cs → 1 < cs.size →
      ∃ inv', process_right_click index inv { stack := none }
          = some (inv', { stack := some { item := cs.item, size := cs.size / 2 } }) ∧
        inv'.get_slot index = some { cs with size := cs.size - cs.size / 2 } ∧
        ∀ j, j ≠ index → inv'.get_slot j = inv.get_slot j) ∧
    (∀ cs, inv.get_slot index = some cs → cs.size = 1 →
      ∃ inv', process_right_click index inv { stack := none }
          = some (inv', { stack := some cs }) ∧
        inv'.get_slot index = none ∧
        ∀ j, j ≠ index → inv'.get_slot j = inv.get_slot j) ∧
    (∀ hs cs i, inv.get_slot index = some cs →
      hs.can_merge_with cs = some true → cs.item = some i →
      cs.size < i.properties.max_stack_size → 0 < hs.size →
      ∃ inv', process_right_click index inv { stack := some hs }
          = some (inv', if hs.size = 1 then { stack := none } else { stack := some { hs with size := hs.size - 1 } }) ∧
        inv'.get_slot index = some { cs with size := cs.size + 1 } ∧
        ∀ j, j ≠ index → inv'.get_slot j = inv.get_slot j) ∧
    (∀ hs cs i, inv.get_slot index = some cs →
      hs.can_merge_with cs = some true → cs.item = some i →
      i.properties.max_stack_size ≤ cs.size →
      process_right_click index inv { stack := some hs } = some (inv, { stack := some hs })) ∧
    (∀ hs cs, inv.get_slot index = some cs →
      hs.can_merge_with cs = some false →
      process_right_click index inv { stack := some hs } = some (inv, { stack := some hs })) ∧
    (∀ hs i, inv.get_slot index = none → hs.item = some i →
      (1 < hs.size →
        ∃ inv', process_right_click index inv { stack := some hs }
            = some (inv', { stack := some { hs with size := hs.size - 1 } }) ∧
          inv'.get_slot index = some (ItemStack.new i 1) ∧
          ∀ j, j ≠ index → inv'.get_slot j = inv.get_slot j) ∧
      (hs.size = 1 →
        ∃ inv', process_right_click index inv { stack := some hs }
            = some (inv', { stack := none }) ∧
          inv'.get_slot index = some hs ∧
          ∀ j, j ≠ index → inv'.get_slot j = inv.get_slot j)) := by
  refine ⟨?_, ?_, ?_, ?_, ?_, ?_⟩
  · intro cs hget hgt
    refine ⟨{ inv with slots := inv.slots.set index { stack := some { cs with size := cs.size - cs.size / 2 } } }, ?_, ?_, ?_⟩
    · simp [process_right_click, hget, ItemStack.split_half,
        show ¬ cs.size ≤ 1 by omega, SlotContainer.set_slot, hin]
    · exact get_slot_set_self inv index _ hin
    · intro j hj
      exact get_slot_set_ne inv index j _ hj
  · intro cs hget hone
    refine ⟨{ inv with slots := inv.slots.set index { stack := none } }, ?_, ?_, ?_⟩
    · simp [process_right_click, hget, ItemStack.split_half,
        show cs.size ≤ 1 by omega, take_slot_of_get_some inv index cs hget]
    · exact get_slot_set_self inv index none hin
    · intro j hj
      exact get_slot_set_ne inv index j none hj
  · intro hs cs i hget hm hci hlt hpos
    refine ⟨{ inv with slots := inv.slots.set index { stack := some { cs with size := cs.size + 1 } } }, ?_, ?_, ?_⟩
    · by_cases hone : hs.size = 1
      · simp [process_right_click, hget, hm, hci, hlt, hpos, hone,
          SlotContainer.set_slot, hin]
      · have : ¬ hs.size - 1 = 0 := by omega
        simp [process_right_click, hget, hm, hci, hlt, hpos, hone,
          SlotContainer.set_slot, hin, this]
    · exact get_slot_set_self inv index _ hin
    · intro j hj
      exact get_slot_set_ne inv index j _ hj
  · intro hs cs i hget hm hci hmax
    simp [process_right_click, hget, hm, hci, show ¬ cs.size < i.properties.max_stack_size by omega]
  · intro hs cs hget hm
    simp [process_right_click, hget, hm]
  · intro hs i hget hi
    constructor
    · intro hgt
      refine ⟨{ inv with slots := inv.slots.set index { stack := some (ItemStack.new i 1) } }, ?_, ?_, ?_⟩
      · simp [process_right_click, hget, hgt, hi, SlotContainer.set_slot, hin]
      · exact get_slot_set_self inv index _ hin
      · intro j hj
        exact get_slot_set_ne inv index j _ hj
    · intro hone
      refine ⟨{ inv with slots := inv.slots.set index { stack := some hs } }, ?_, ?_, ?_⟩
      · simp [process_right_click, hget, show ¬ hs.size > 1 by omega,
          SlotContainer.set_slot, hin]
      · exact get_slot_set_self inv index _ hin
      · intro j hj
        exact get_slot_set_ne inv index j _ hj

/-- Witness for C4: right-clicking an empty slot with a held single apple
places the whole stack and empties the cursor; right-clicking a full slot
(64 of 64) with held apples is a no-op. -/
theorem C4_process_right_click_witness :
    (∃ inv', process_right_click 0 (SlotContainer.new 1) { stack := some (ItemStack.new testApple 1) }
        = some (inv', { stack := none }) ∧
      inv'.get_slot 0 = some (ItemStack.new testApple 1)) ∧
    process_right_click 0
        { slot_count := 1, slots := [{ stack := some (ItemStack.new testApple 64) }] }
        { stack := some (ItemStack.new testApple 5) }
      = some ({ slot_count := 1, slots := [{ stack := some (ItemStack.new testApple 64) }] },
          { stack := some (ItemStack.new testApple 5) }) := by
  constructor
  · obtain ⟨inv', h1, h2, _⟩ :=
      ((C4_process_right_click 0 (SlotContainer.new 1) (by decide)).2.2.2.2.2
        (ItemStack.new testApple 1) testApple rfl rfl).2 rfl
    exact ⟨inv', h1, h2⟩
  · exact (C4_process_right_click 0
      { slot_count := 1, slots := [{ stack := some (ItemStack.new testApple 64) }] }
      (by decide)).2.2.2.1
      (ItemStack.new testApple 5) (ItemStack.new testApple 64) testApple
      rfl (by decide) rfl (by decide)

/-! ### C1: even distribution -/

theorem sum_items_for_slot_all_extra (n per rem : Nat) (h : n ≤ rem) :
    ((List.range n).map (items_for_slot per rem)).sum = n * (per + 1) := by
  induction n with
  | zero => simp
  | succ k ih =>
      rw [List.range_succ, List.map_append, List.sum_append]
      simp [items_for_slot, show k < rem by omega, ih (by omega)]
      ring

theorem sum_items_for_slot (N per rem : Nat) (h : rem ≤ N) :
    ((List.range N).map (items_for_slot per rem)).sum = N * per + rem := by
  induction N with
  | zero =>
      simp
      omega
  | succ k ih =>
      rw [List.range_succ, List.map_append, List.sum_append]
      by_cases hk : rem ≤ k
      · rw [ih hk]
        simp [items_for_slot, show ¬ k < rem by omega]
        ring
      · have hrem : rem = k + 1 := by omega
        rw [sum_items_for_slot_all_extra k per rem (by omega)]
        simp [items_for_slot, show k < rem by omega]
        subst hrem
        ring

/-- C1: with `N ≥ 2` remaining valid targets and `total` held units, the
even split computes `base = total / N` and `remainder = total % N`; the
target at insertion position `i` is allotted `base + 1` when `i < remainder`
and `base` otherwise; the allotments over all `N` targets sum to exactly
`total`, and any two allotments differ by at most 1. -/
theorem C1_even_distribution (total N : Nat) (hN : 2 ≤ N) :
    calculate_item_distribution total N = (total / N, total % N) ∧
    ((List.range N).map (items_for_slot (total / N) (total % N))).sum = total ∧
    (∀ i, i < total % N → items_for_slot (total / N) (total % N) i = total / N + 1) ∧
    (∀ i, total % N ≤ i → items_for_slot (total / N) (total % N) i = total / N) ∧
    (∀ i j, i < N → j < N →
      items_for_slot (total / N) (total % N) i
        ≤ items_for_slot (total / N) (total % N) j + 1) := by
  refine ⟨rfl, ?_, ?_, ?_, ?_⟩
  · rw [sum_items_for_slot N (total / N) (total % N)
      (le_of_lt (Nat.mod_lt total (by omega)))]
    exact Nat.div_add_mod total N
  · intro i h
    simp [items_for_slot, h]
  · intro i h
    simp [items_for_slot, show ¬ i < total % N by omega]
  · intro i j _ _
    unfold items_for_slot
    split <;> split <;> omega

/-- Witness for C1 at the spec scenario: 9 items over 4 targets gives
base 2, remainder 1, and allotments summing to 9. -/
theorem C1_even_distribution_witness :
    calculate_item_distribution 9 4 = (2, 1) ∧
    ((List.range 4).map (items_for_slot 2 1)).sum = 9 := by
  have h := C1_even_distribution 9 4 (by decide)
  exact ⟨h.1, h.2.1⟩

/-! ### C8: container existence over manager traces -/

/-- Invariant tying container existence and `available_chests` to a set `S`
of chest ids: hotbar and player inventory exist, and `Chest id` exists (and
is listed available) exactly for `id ∈ S`. -/
def managerInv (cm : ContainerManager) (S : Nat → Prop) : Prop :=
  (cm.containers ContainerType.Hotbar).isSome = true ∧
  (cm.containers ContainerType.PlayerInventory).isSome = true ∧
  ∀ id, ((cm.containers (ContainerType.Chest id)).isSome = true ↔ S id) ∧
    (id ∈ cm.available_chests ↔ S id)

theorem insert_container_isSome (m : ContainerType → Option SlotContainer)
    (t t' : ContainerType) (c : SlotContainer) :
    ((ContainerManager.insert_container m t c) t').isSome = true
      ↔ (t' = t ∨ (m t').isSome = true) := by
  unfold ContainerManager.insert_container
  by_cases h : t' = t <;> simp [h]

theorem managerInv_congr (cm : ContainerManager) (S S' : Nat → Prop)
    (h : managerInv cm S) (he : ∀ id, S id ↔ S' id) : managerInv cm S' := by
  obtain ⟨hH, hP, hC⟩ := h
  exact ⟨hH, hP, fun id => ⟨(hC id).1.trans (he id), (hC id).2.trans (he id)⟩⟩

theorem managerInv_default :
    managerInv ContainerManager.defaultManager (fun id => id = 1 ∨ id = 2 ∨ id = 3) := by
  refine ⟨rfl, rfl, ?_⟩
  intro id
  constructor
  · show (ContainerManager.defaultManager.containers (ContainerType.Chest id)).isSome
        = true ↔ _
    simp [ContainerManager.defaultManager, ContainerManager.insert_container]
    by_cases h3 : id = 3 <;> by_cases h2 : id = 2 <;> by_cases h1 : id = 1 <;>
      simp [h1, h2, h3]
  · show id ∈ ContainerManager.defaultManager.available_chests ↔ _
    simp [ContainerManager.defaultManager]

theorem managerInv_step (cm : ContainerManager) (S : Nat → Prop) (op : ManagerOp)
    (h : managerInv cm S) :
    managerInv (applyOp cm op) (fun id => S id ∨ ManagerOp.open_chest id = op) := by
  obtain ⟨hH, hP, hC⟩ := h
  cases op with
  | open_inventory =>
      refine ⟨hH, hP, fun id => ?_⟩
      have := hC id
      simp only [applyOp, ContainerManager.open_inventory]
      simpa using this
  | close_inventory =>
      refine ⟨hH, hP, fun id => ?_⟩
      have := hC id
      simp only [applyOp, ContainerManager.close_inventory]
      simpa using this
  | close_chest =>
      refine ⟨hH, hP, fun id => ?_⟩
      have := hC id
      simp only [applyOp, ContainerManager.close_chest]
      simpa using this
  | open_chest cid =>
      by_cases hex : (cm.containers (ContainerType.Chest cid)).isSome = true
      · have hScid : S cid := (hC cid).1.mp hex
        refine ⟨?_, ?_, fun id => ?_⟩
        · simpa [applyOp, ContainerManager.open_chest, hex] using hH
        · simpa [applyOp, ContainerManager.open_chest, hex] using hP
        · constructor
          · simp only [applyOp, ContainerManager.open_chest, hex]
            constructor
            · intro hid
              exact Or.inl ((hC id).1.mp (by simpa using hid))
            · intro hid
              rcases hid with hid | hid
              · simpa using (hC id).1.mpr hid
              · have : id = cid := by
                  cases hid
                  rfl
                subst this
                simpa using hex
          · simp only [applyOp, ContainerManager.open_chest, hex]
            constructor
            · intro hid
              exact Or.inl ((hC id).2.mp (by simpa using hid))
            · intro hid
              rcases hid with hid | hid
              · simpa using (hC id).2.mpr hid
              · have heq : id = cid := by
                  cases hid
                  rfl
                subst heq
                simpa using (hC id).2.mpr hScid
      · have hnS : ¬ S cid := fun hs => hex ((hC cid).1.mpr hs)
        have hnmem : cid ∉ cm.available_chests := fun hm => hnS ((hC cid).2.mp hm)
        have hexf : (cm.containers (ContainerType.Chest cid)).isSome = false := by
          simpa using hex
        refine ⟨?_, ?_, fun id => ?_⟩
        · simpa [applyOp, ContainerManager.open_chest, hexf,
            ContainerManager.insert_container] using hH
        · simpa [applyOp, ContainerManager.open_chest, hexf,
            ContainerManager.insert_container] using hP
        · constructor
          · simp only [applyOp, ContainerManager.open_chest, hexf]
            simp only [Bool.false_eq_true, if_false]
            rw [insert_container_isSome]
            constructor
            · intro hca
              rcases hca with hca | hca
              · injection hca with hca
                subst hca
                exact Or.inr rfl
              · exact Or.inl ((hC id).1.mp hca)
            · intro hs
              rcases hs with hs | hs
              · exact Or.inr ((hC id).1.mpr hs)
              · injection hs with hs
                subst hs
                exact Or.inl rfl
          · simp only [applyOp, ContainerManager.open_chest, hexf]
            simp only [Bool.false_eq_true, if_false]
            rw [if_neg hnmem]
            simp only [List.mem_append, List.mem_singleton]
            constructor
            · intro hm
              rcases hm with hm | hm
              · exact Or.inl ((hC id).2.mp hm)
              · subst hm
                exact Or.inr rfl
            · intro hs
              rcases hs with hs | hs
              · exact Or.inl ((hC id).2.mpr hs)
              · injection hs with hs
                subst hs
                exact Or.inr rfl
  | switch_chest cid =>
      by_cases hmem : cid ∈ cm.available_chests
      · have hScid : S cid := (hC cid).2.mp hmem
        have hex : (cm.containers (ContainerType.Chest cid)).isSome = true :=
          (hC cid).1.mpr hScid
        refine ⟨?_, ?_, fun id => ?_⟩
        · simpa [applyOp, ContainerManager.switch_chest, hmem,
            ContainerManager.open_chest, hex] using hH
        · simpa [applyOp, ContainerManager.switch_chest, hmem,
            ContainerManager.open_chest, hex] using hP
        · have := hC id
          simp only [applyOp, ContainerManager.switch_chest, hmem,
            ContainerManager.open_chest, hex]
          simpa using this
      · refine ⟨?_, ?_, fun id => ?_⟩
        · simpa [applyOp, ContainerManager.switch_chest, hmem] using hH
        · simpa [applyOp, ContainerManager.switch_chest, hmem] using hP
        · have := hC id
          simp only [applyOp, ContainerManager.switch_chest, hmem]
          simpa using this

theorem managerInv_runOps (ops : List ManagerOp) :
    ∀ cm S, managerInv cm S →
      managerInv (runOps cm ops) (fun id => S id ∨ ManagerOp.open_chest id ∈ ops) := by
  induction ops with
  | nil =>
      intro cm S h
      exact managerInv_congr cm S _ h (by simp)
  | cons op rest ih =>
      intro cm S h
      have h2 := ih (applyOp cm op) _ (managerInv_step cm S op h)
      refine managerInv_congr _ _ _ h2 ?_
      intro id
      simp [List.mem_cons]
      tauto

/-- C8 counterexample: with no call to `open_chest` at all (the empty
trace), the container for `Chest 1` already exists, so "a `Chest(id)` exists
iff `open_chest(id)` has previously been invoked" fails at `id = 1`. -/
theorem C8_counterexample :
    ¬ (((runOps ContainerManager.defaultManager []).get_container
          (ContainerType.Chest 1)).isSome = true
        ↔ ManagerOp.open_chest 1 ∈ ([] : List ManagerOp)) := by
  intro h
  have hmem := h.mp rfl
  simp at hmem

/-- C8 amended: after any sequence of manager calls starting from
construction, Hotbar and PlayerInventory exist; `Chest id` exists iff
`id` is one of the eagerly created chests 1, 2, 3 or `open_chest id` was
invoked somewhere in the sequence. -/
theorem C8_chest_existence (ops : List ManagerOp) :
    ((runOps ContainerManager.defaultManager ops).get_container
        ContainerType.Hotbar).isSome = true ∧
    ((runOps ContainerManager.defaultManager ops).get_container
        ContainerType.PlayerInventory).isSome = true ∧
    ∀ id, ((runOps ContainerManager.defaultManager ops).get_container
        (ContainerType.Chest id)).isSome = true
      ↔ (id = 1 ∨ id = 2 ∨ id = 3 ∨ ManagerOp.open_chest id ∈ ops) := by
  obtain ⟨hH, hP, hC⟩ := managerInv_runOps ops ContainerManager.defaultManager _
    managerInv_default
  refine ⟨hH, hP, fun id => ?_⟩
  have := (hC id).1
  simpa [ContainerManager.get_container, or_assoc] using this

/-! ### C2: pickup-slot exclusion -/

theorem set_slot_eq_some (c : SlotContainer) (j : Nat) (v : Option ItemStack)
    (c2 : SlotContainer) (h : c.set_slot j v = some c2) :
    j < c.slots.length ∧ c2 = { c with slots := c.slots.set j { stack := v } } := by
  unfold SlotContainer.set_slot at h
  split at h
  · cases h
    exact ⟨by assumption, rfl⟩
  · cases h

theorem place_stack_in_slot_frame (container : SlotContainer) (j : Nat) (st : ItemStack)
    (lo : Option ItemStack) (c' : SlotContainer)
    (h : place_stack_in_slot container j st = some (lo, c')) :
    c'.slots.length = container.slots.length ∧
    ∀ k, k ≠ j → c'.get_slot k = container.get_slot k := by
  unfold place_stack_in_slot at h
  simp only [Option.pure_def, Option.bind_eq_bind] at h
  split at h
  · -- empty slot: plain set_slot
    rw [Option.bind_eq_some] at h
    obtain ⟨c2, hset, h2⟩ := h
    obtain ⟨hlt, hc2⟩ := set_slot_eq_some container j (some st) c2 hset
    subst hc2
    cases h2
    exact ⟨by simp, fun k hk => get_slot_set_ne container j k (some st) hk⟩
  · -- occupied slot
    rename_i ex hg
    rw [Option.bind_eq_some] at h
    obtain ⟨b, hm, h2⟩ := h
    split at h2
    · -- mergeable
      split at h2
      · cases h2
      · rw [Option.bind_eq_some] at h2
        obtain ⟨c2, hset, h3⟩ := h2
        obtain ⟨hlt, hc2⟩ := set_slot_eq_some _ _ _ _ hset
        have hc' : c' = c2 := by
          split at h3
          · cases h3
            rfl
          · rw [Option.bind_eq_some] at h3
            obtain ⟨si, hsi, h4⟩ := h3
            cases h4
            rfl
        subst hc'
        subst hc2
        exact ⟨by simp, fun k hk => get_slot_set_ne container j k _ hk⟩
    · -- not mergeable: container unchanged
      cases h2
      exact ⟨rfl, fun k _ => rfl⟩

theorem slot_at_update_ne (cm : ContainerManager) (t : ContainerType)
    (c : SlotContainer) (t0 : ContainerType) (j0 : Nat) (hne : t0 ≠ t) :
    (cm.update_container t c).slot_at t0 j0 = cm.slot_at t0 j0 := by
  simp [ContainerManager.slot_at, ContainerManager.get_container,
    ContainerManager.update_container, ContainerManager.insert_container, hne]

theorem slot_at_update_eq (cm : ContainerManager) (t : ContainerType)
    (c : SlotContainer) (j0 : Nat) :
    (cm.update_container t c).slot_at t j0 = c.get_slot j0 := by
  simp [ContainerManager.slot_at, ContainerManager.get_container,
    ContainerManager.update_container, ContainerManager.insert_container]

theorem execute_distribution_aux_frame (valid_slots : List (ContainerType × Nat)) :
    ∀ cm held per rem i n cm',
      execute_distribution_aux cm held valid_slots per rem i = some (n, cm') →
      ∀ t0 j0, (∀ e ∈ valid_slots, e ≠ (t0, j0)) →
        cm'.slot_at t0 j0 = cm.slot_at t0 j0 := by
  induction valid_slots with
  | nil =>
      intro cm held per rem i n cm' h t0 j0 _
      unfold execute_distribution_aux at h
      cases h
      rfl
  | cons hd rest ih =>
      obtain ⟨t, j⟩ := hd
      intro cm held per rem i n cm' h t0 j0 hnotin
      have hhd : (t, j) ≠ (t0, j0) := hnotin (t, j) (by simp)
      have hrest : ∀ e ∈ rest, e ≠ (t0, j0) := fun e he => hnotin e (by simp [he])
      unfold execute_distribution_aux at h
      simp only [Option.pure_def, Option.bind_eq_bind] at h
      split at h
      · exact ih cm held per rem (i + 1) n cm' h t0 j0 hrest
      · rename_i container hg
        split at h
        · rw [Option.bind_eq_some] at h
          obtain ⟨hi, hhi, h⟩ := h
          rw [Option.bind_eq_some] at h
          obtain ⟨pr, hp, h⟩ := h
          obtain ⟨lo, c2⟩ := pr
          rw [Option.bind_eq_some] at h
          obtain ⟨pr2, ha, h⟩ := h
          obtain ⟨n2, cm2⟩ := pr2
          cases h
          have h1 := ih (cm.update_container t c2) held per rem (i + 1)
            n2 cm2 ha t0 j0 hrest
          rw [h1]
          by_cases ht : t0 = t
          · subst ht
            have hj : j0 ≠ j := by
              intro he
              exact hhd (by rw [he])
            rw [slot_at_update_eq]
            have hfr := (place_stack_in_slot_frame container j _ lo c2 hp).2 j0 hj
            rw [hfr]
            simp [ContainerManager.slot_at, hg]
          · exact slot_at_update_ne cm t c2 t0 j0 ht
        · exact ih cm held per rem (i + 1) n cm' h t0 j0 hrest

theorem filter_out_pickup_slot_some (V : List (ContainerType × Nat))
    (p : ContainerType × Nat) :
    filter_out_pickup_slot V (some p)
      = if V.filter (fun q => decide (q ≠ p)) ≠ [] then V.filter (fun q => decide (q ≠ p))
        else V := rfl

/-- C2: when the pickup slot has at least one alternative among the valid
targets, it is excluded from distribution (it is not a target, and a
completed distribution leaves its content unchanged); when filtering it out
would leave no targets, the valid target list is kept as is. -/
theorem C2_pickup_slot_exclusion (cm : ContainerManager) (hs : ItemStack)
    (ds : DragState) (p : ContainerType × Nat) (V : List (ContainerType × Nat))
    (hp : ds.pickup_slot = some p)
    (hV : filter_valid_distribution_slots ds.left_drag_slots hs cm = some V) :
    ((V.filter (fun q => decide (q ≠ p))) ≠ [] →
      p ∉ filter_out_pickup_slot V ds.pickup_slot ∧
      ∀ cm' h', distribute_items_evenly cm { stack := some hs } ds = some (cm', h') →
        cm'.slot_at p.1 p.2 = cm.slot_at p.1 p.2) ∧
    ((V.filter (fun q => decide (q ≠ p))) = [] →
      filter_out_pickup_slot V ds.pickup_slot = V) := by
  constructor
  · intro hne
    have hL : filter_out_pickup_slot V ds.pickup_slot = V.filter (fun q => decide (q ≠ p)) := by
      rw [hp, filter_out_pickup_slot_some, if_pos hne]
    have hpnot : p ∉ filter_out_pickup_slot V ds.pickup_slot := by
      rw [hL]
      intro hmem
      have := List.of_mem_filter hmem
      simp at this
    refine ⟨hpnot, ?_⟩
    intro cm' h' hd
    have hgf : get_filtered_distribution_slots ds hs cm
        = some (filter_out_pickup_slot V ds.pickup_slot) := by
      unfold get_filtered_distribution_slots
      rw [hV]
      rfl
    simp only [distribute_items_evenly, Option.pure_def, Option.bind_eq_bind, hgf,
      Option.some_bind] at hd
    by_cases hemp : (filter_out_pickup_slot V ds.pickup_slot).isEmpty
    · rw [if_pos hemp] at hd
      cases hd
      rfl
    · rw [if_neg hemp] at hd
      rw [Option.bind_eq_some] at hd
      obtain ⟨⟨n, cm2⟩, hex, hd⟩ := hd
      cases hd
      exact execute_distribution_aux_frame _ cm hs _ _ 0 n cm2 hex p.1 p.2
        (fun e he heq => hpnot (by
          have hep : e = p := heq
          rw [← hep]
          exact he))
  · intro hemp
    rw [hp, filter_out_pickup_slot_some, if_neg (not_not_intro hemp)]

/-- Witness for C2: a drag over hotbar slots 0, 1, 2 (all empty) with pickup
slot 0 excludes slot 0 from the targets, and a held stack of 5 apples is
then distributed without touching slot 0. -/
theorem C2_pickup_slot_exclusion_witness :
    (ContainerType.Hotbar, 0) ∉ filter_out_pickup_slot
        [(ContainerType.Hotbar, 0), (ContainerType.Hotbar, 1), (ContainerType.Hotbar, 2)]
        (some (ContainerType.Hotbar, 0)) ∧
    ∀ cm' h', distribute_items_evenly ContainerManager.defaultManager
        { stack := some (ItemStack.new testApple 5) }
        { left_drag_slots := [(ContainerType.Hotbar, 0), (ContainerType.Hotbar, 1), (ContainerType.Hotbar, 2)]
          pickup_slot := some (ContainerType.Hotbar, 0) } = some (cm', h') →
      cm'.slot_at ContainerType.Hotbar 0
        = ContainerManager.defaultManager.slot_at ContainerType.Hotbar 0 := by
  exact (C2_pickup_slot_exclusion ContainerManager.defaultManager
    (ItemStack.new testApple 5)
    { left_drag_slots := [(ContainerType.Hotbar, 0), (ContainerType.Hotbar, 1), (ContainerType.Hotbar, 2)]
      pickup_slot := some (ContainerType.Hotbar, 0) }
    (ContainerType.Hotbar, 0)
    [(ContainerType.Hotbar, 0), (ContainerType.Hotbar, 1), (ContainerType.Hotbar, 2)]
    rfl (by decide)).1 (by decide)

/-! ### C7: the `count ≤ max_stack_size` invariant -/

/-- A stack respects its kind's maximum stack size. -/
def ItemStack.size_within_max (s : ItemStack) : Bool :=
  match s.item with
  | some i => decide (s.size ≤ i.properties.max_stack_size)
  | none => true

/-- Optional-stack form of `ItemStack.size_within_max`. -/
def stack_opt_within_max (o : Option ItemStack) : Bool :=
  match o with
  | some s => s.size_within_max
  | none => true

/-- Every stack stored in the container respects its maximum. -/
def SlotContainer.all_within_max (c : SlotContainer) : Bool :=
  c.slots.all (fun sl => stack_opt_within_max sl.stack)

/-- The held stack respects its maximum. -/
def HeldItem.within_max (h : HeldItem) : Bool :=
  stack_opt_within_max h.stack

/-- Every container owned by the manager respects the invariant. -/
def ContainerManager.all_within_max (cm : ContainerManager) : Prop :=
  ∀ t c, cm.containers t = some c → c.all_within_max = true

theorem size_within_max_iff (s : ItemStack) :
    s.size_within_max = true
      ↔ ∀ i, s.item = some i → s.size ≤ i.properties.max_stack_size := by
  cases hsi : s.item <;> simp [ItemStack.size_within_max, hsi]

theorem size_within_max_mk (it : Option Item) (n : Nat)
    (h : ∀ i, it = some i → n ≤ i.properties.max_stack_size) :
    ItemStack.size_within_max { item := it, size := n } = true := by
  rw [size_within_max_iff]
  exact h

theorem all_within_max_get (c : SlotContainer) (j : Nat) (s : ItemStack)
    (hc : c.all_within_max = true) (hg : c.get_slot j = some s) :
    s.size_within_max = true := by
  unfold SlotContainer.get_slot at hg
  cases hsl : c.slots[j]? with
  | none => simp [hsl] at hg
  | some sl =>
      rw [hsl] at hg
      have hmem : sl ∈ c.slots := by
        have := List.getElem?_eq_some_iff.mp hsl
        obtain ⟨hlt, hget⟩ := this
        exact hget ▸ List.getElem_mem hlt
      have := (List.all_eq_true.mp hc) sl hmem
      simp at hg
      rw [hg] at this
      exact this

theorem all_within_max_set (c : SlotContainer) (j : Nat) (v : Option ItemStack)
    (hc : c.all_within_max = true) (hv : stack_opt_within_max v = true) :
    SlotContainer.all_within_max { c with slots := c.slots.set j { stack := v } } = true := by
  unfold SlotContainer.all_within_max at hc ⊢
  rw [List.all_eq_true] at hc ⊢
  intro sl hmem
  rcases List.mem_or_eq_of_mem_set hmem with hmem | rfl
  · exact hc sl hmem
  · exact hv

theorem try_merge_preserves (s o : ItemStack) (b : Bool) (s' o' : ItemStack)
    (hsw : s.size_within_max = true) (how : o.size_within_max = true)
    (h : s.try_merge o = some (b, s', o')) :
    s'.size_within_max = true ∧ o'.size_within_max = true := by
  unfold ItemStack.try_merge at h
  simp only [Option.pure_def, Option.bind_eq_bind] at h
  rw [Option.bind_eq_some] at h
  obtain ⟨mb, hm, h2⟩ := h
  split at h2
  · cases h2
    exact ⟨hsw, how⟩
  · split at h2
    · cases h2
    · rename_i oi hoi
      split at h2
      · cases h2
        refine ⟨?_, ?_⟩
        · exact size_within_max_mk s.item 0 (fun i _ => Nat.zero_le _)
        · exact size_within_max_mk o.item (s.size + o.size)
            (fun i hi => by
              rw [hoi] at hi
              cases hi
              assumption)
      · cases h2
        refine ⟨?_, ?_⟩
        · refine size_within_max_mk s.item _ (fun i hi => ?_)
          have := (size_within_max_iff s).mp hsw i hi
          omega
        · refine size_within_max_mk o.item _ (fun i hi => ?_)
          rw [hoi] at hi
          cases hi
          have := (size_within_max_iff o).mp how oi hoi
          omega

theorem place_stack_in_slot_preserves (c : SlotContainer) (j : Nat) (st : ItemStack)
    (lo : Option ItemStack) (c' : SlotContainer)
    (hc : c.all_within_max = true) (hst : st.size_within_max = true)
    (h : place_stack_in_slot c j st = some (lo, c')) :
    c'.all_within_max = true ∧ stack_opt_within_max lo = true := by
  unfold place_stack_in_slot at h
  simp only [Option.pure_def, Option.bind_eq_bind] at h
  split at h
  · rw [Option.bind_eq_some] at h
    obtain ⟨c2, hset, h2⟩ := h
    obtain ⟨hlt, hc2⟩ := set_slot_eq_some c j (some st) c2 hset
    subst hc2
    cases h2
    exact ⟨all_within_max_set c j (some st) hc hst, rfl⟩
  · rename_i ex hg
    rw [Option.bind_eq_some] at h
    obtain ⟨mb, hm, h2⟩ := h
    split at h2
    · split at h2
      · cases h2
      · rename_i ei hei
        rw [Option.bind_eq_some] at h2
        obtain ⟨c2, hset, h3⟩ := h2
        obtain ⟨hlt, hc2⟩ := set_slot_eq_some _ _ _ _ hset
        subst hc2
        have hexw : ex.size_within_max = true := all_within_max_get c j ex hc hg
        have hexle : ex.size ≤ ei.properties.max_stack_size :=
          (size_within_max_iff ex).mp hexw ei hei
        have hcok : SlotContainer.all_within_max
            { c with slots := c.slots.set j { stack := some { ex with size := ex.size + min (ei.properties.max_stack_size - ex.size) st.size } } } = true := by
          refine all_within_max_set c j _ hc ?_
          refine size_within_max_mk ex.item _ (fun i hi => ?_)
          rw [hei] at hi
          cases hi
          omega
        split at h3
        · cases h3
          exact ⟨hcok, rfl⟩
        · rw [Option.bind_eq_some] at h3
          obtain ⟨si, hsi, h4⟩ := h3
          cases h4
          refine ⟨hcok, ?_⟩
          show ItemStack.size_within_max (ItemStack.new si _) = true
          refine size_within_max_mk (some si) _ (fun i hi => ?_)
          cases hi
          have := (size_within_max_iff st).mp hst si hsi
          omega
    · cases h2
      exact ⟨hc, hst⟩

theorem take_slot_get_none (c : SlotContainer) (j : Nat)
    (h : c.get_slot j = none) : c.take_slot j = (none, c) := by
  unfold SlotContainer.take_slot
  unfold SlotContainer.get_slot at h
  cases hsl : c.slots[j]? with
  | none => simp [hsl]
  | some sl =>
      rw [hsl] at h
      simp at h
      have hsleq : sl = { stack := none } := by
        cases sl
        simp_all
      subst hsleq
      simp [List.set_self_of_getElem? c.slots j _ hsl]

theorem deposit_single_item_preserves (j : Nat) (c : SlotContainer) (h : HeldItem)
    (c' : SlotContainer) (h' : HeldItem)
    (hc : c.all_within_max = true) (hh : h.within_max = true)
    (hd : deposit_single_item j c h = some (c', h')) :
    c'.all_within_max = true ∧ h'.within_max = true := by
  unfold deposit_single_item at hd
  simp only [Option.pure_def, Option.bind_eq_bind] at hd
  split at hd
  · cases hd
    exact ⟨hc, hh⟩
  · rename_i held_stack hhs
    have hhw : held_stack.size_within_max = true := by
      unfold HeldItem.within_max at hh
      rw [hhs] at hh
      exact hh
    split at hd
    · cases hd
      exact ⟨hc, rfl⟩
    · rename_i hnz
      have hdecok : stack_opt_within_max (some { held_stack with size := held_stack.size - 1 }) = true := by
        refine size_within_max_mk held_stack.item _ (fun i hi2 => ?_)
        have := (size_within_max_iff held_stack).mp hhw i hi2
        omega
      split at hd
      · -- empty slot: place a single unit
        rw [Option.bind_eq_some] at hd
        obtain ⟨hi, hhi, hd⟩ := hd
        rw [Option.bind_eq_some] at hd
        obtain ⟨c2, hset, hd⟩ := hd
        obtain ⟨hlt, hc2⟩ := set_slot_eq_some _ _ _ _ hset
        subst hc2
        have hone : 1 ≤ hi.properties.max_stack_size := by
          have := (size_within_max_iff held_stack).mp hhw hi hhi
          omega
        have hcok := all_within_max_set c j (some (ItemStack.new hi 1)) hc
          (size_within_max_mk (some hi) 1 (fun i hi2 => by
            cases hi2
            exact hone))
        split at hd
        · cases hd
          exact ⟨hcok, rfl⟩
        · cases hd
          exact ⟨hcok, hdecok⟩
      · -- occupied slot
        rename_i slot_stack hg
        rw [Option.bind_eq_some] at hd
        obtain ⟨mb, hm, hd⟩ := hd
        split at hd
        · split at hd
          · cases hd
          · rename_i si hsi
            split at hd
            · rename_i hltmax
              rw [Option.bind_eq_some] at hd
              obtain ⟨c2, hset, hd⟩ := hd
              obtain ⟨hlt, hc2⟩ := set_slot_eq_some _ _ _ _ hset
              subst hc2
              have hcok := all_within_max_set c j
                (some { slot_stack with size := slot_stack.size + 1 }) hc
                (size_within_max_mk slot_stack.item _ (fun i hi2 => by
                  rw [hsi] at hi2
                  cases hi2
                  omega))
              split at hd
              · cases hd
                exact ⟨hcok, rfl⟩
              · cases hd
                exact ⟨hcok, hdecok⟩
            · cases hd
              exact ⟨hc, hh⟩
        · cases hd
          exact ⟨hc, hh⟩

theorem process_left_click_preserves (j : Nat) (c : SlotContainer) (h : HeldItem)
    (c' : SlotContainer) (h' : HeldItem)
    (hc : c.all_within_max = true) (hh : h.within_max = true)
    (hd : process_left_click j c h = some (c', h')) :
    c'.all_within_max = true ∧ h'.within_max = true := by
  have hc0 : SlotContainer.all_within_max { c with slots := c.slots.set j { stack := none } } = true :=
    all_within_max_set c j none hc rfl
  cases hh0 : h.stack with
  | none =>
      cases hg : c.get_slot j with
      | none =>
          rw [show h = { stack := none } from by cases h; simp_all] at hd hh
          simp [process_left_click, take_slot_get_none c j hg] at hd
          obtain ⟨rfl, rfl⟩ := hd
          exact ⟨hc, hh⟩
      | some s =>
          rw [show h = { stack := none } from by cases h; simp_all] at hd hh
          simp [process_left_click, take_slot_of_get_some c j s hg] at hd
          obtain ⟨rfl, rfl⟩ := hd
          refine ⟨hc0, ?_⟩
          show stack_opt_within_max (some s) = true
          exact all_within_max_get c j s hc hg
  | some hs =>
      have hhsw : hs.size_within_max = true := by
        unfold HeldItem.within_max at hh
        rw [hh0] at hh
        exact hh
      rw [show h = { stack := some hs } from by cases h; simp_all] at hd
      cases hg : c.get_slot j with
      | none =>
          simp only [process_left_click, take_slot_get_none c j hg,
            Option.pure_def, Option.bind_eq_bind] at hd
          rw [Option.bind_eq_some] at hd
          obtain ⟨c2, hset, hd⟩ := hd
          obtain ⟨hlt, hc2⟩ := set_slot_eq_some _ _ _ _ hset
          subst hc2
          cases hd
          exact ⟨all_within_max_set c j (some hs) hc hhsw, rfl⟩
      | some cs =>
          have hcsw : cs.size_within_max = true := all_within_max_get c j cs hc hg
          simp only [process_left_click, take_slot_of_get_some c j cs hg,
            Option.pure_def, Option.bind_eq_bind] at hd
          rw [Option.bind_eq_some] at hd
          obtain ⟨mb, hm, hd⟩ := hd
          split at hd
          · -- mergeable: try_merge then write back
            rw [Option.bind_eq_some] at hd
            obtain ⟨tr, htm, hd⟩ := hd
            obtain ⟨full, hsA, csA⟩ := tr
            obtain ⟨hsAok, csAok⟩ := try_merge_preserves hs cs full hsA csA hhsw hcsw htm
            rw [Option.bind_eq_some] at hd
            obtain ⟨c2, hset, hd⟩ := hd
            obtain ⟨hlt2, hc2⟩ := set_slot_eq_some _ _ _ _ hset
            subst hc2
            have hcok : SlotContainer.all_within_max
                { c with slots := (c.slots.set j { stack := none }).set j { stack := some csA } } = true := by
              rw [List.set_set]
              exact all_within_max_set c j (some csA) hc csAok
            split at hd
            · cases hd
              exact ⟨hcok, rfl⟩
            · cases hd
              exact ⟨hcok, hsAok⟩
          · -- not mergeable: swap
            rw [Option.bind_eq_some] at hd
            obtain ⟨c2, hset, hd⟩ := hd
            obtain ⟨hlt2, hc2⟩ := set_slot_eq_some _ _ _ _ hset
            subst hc2
            cases hd
            constructor
            · rw [List.set_set]
              exact all_within_max_set c j (some hs) hc hhsw
            · exact hcsw

theorem process_right_click_preserves (j : Nat) (c : SlotContainer) (h : HeldItem)
    (c' : SlotContainer) (h' : HeldItem)
    (hc : c.all_within_max = true) (hh : h.within_max = true)
    (hd : process_right_click j c h = some (c', h')) :
    c'.all_within_max = true ∧ h'.within_max = true := by
  unfold process_right_click at hd
  simp only [Option.pure_def, Option.bind_eq_bind] at hd
  split at hd
  · -- held empty, slot occupied: split or take
    rename_i slot_stack hh0 hg
    have hsw : slot_stack.size_within_max = true := all_within_max_get c j slot_stack hc hg
    split at hd
    · -- split_half returned a half
      rename_i pr half rest hsp
      rw [Option.bind_eq_some] at hd
      obtain ⟨c2, hset, hd⟩ := hd
      obtain ⟨hlt, hc2⟩ := set_slot_eq_some _ _ _ _ hset
      subst hc2
      cases hd
      unfold ItemStack.split_half at hsp
      split at hsp
      · cases hsp
      · rename_i hgt1
        cases hsp
        constructor
        · refine all_within_max_set c j _ hc ?_
          refine size_within_max_mk slot_stack.item _ (fun i hi2 => ?_)
          have := (size_within_max_iff slot_stack).mp hsw i hi2
          omega
        · show ItemStack.size_within_max { item := slot_stack.item, size := slot_stack.size / 2 } = true
          refine size_within_max_mk slot_stack.item _ (fun i hi2 => ?_)
          have := (size_within_max_iff slot_stack).mp hsw i hi2
          omega
    · -- split_half returned nothing: take the whole stack
      cases hd
      rename_i hsp
      constructor
      · unfold SlotContainer.take_slot
        cases hsl : c.slots[j]? with
        | none => exact hc
        | some sl =>
            show SlotContainer.all_within_max { c with slots := c.slots.set j { stack := none } } = true
            exact all_within_max_set c j none hc rfl
      · show HeldItem.within_max { stack := (c.take_slot j).1 } = true
        rw [take_slot_of_get_some c j slot_stack hg]
        exact hsw
  · -- held occupied, slot occupied
    rename_i held_stack slot_stack hh0 hg
    have hhsw : held_stack.size_within_max = true := by
      unfold HeldItem.within_max at hh
      rw [hh0] at hh
      exact hh
    have hsw : slot_stack.size_within_max = true := all_within_max_get c j slot_stack hc hg
    rw [Option.bind_eq_some] at hd
    obtain ⟨mb, hm, hd⟩ := hd
    split at hd
    · split at hd
      · cases hd
      · rename_i si hsi
        split at hd
        · rename_i hltmax
          rw [Option.bind_eq_some] at hd
          obtain ⟨c2, hset, hd⟩ := hd
          obtain ⟨hlt, hc2⟩ := set_slot_eq_some _ _ _ _ hset
          subst hc2
          have hcok := all_within_max_set c j
            (some { slot_stack with size := slot_stack.size + 1 }) hc
            (size_within_max_mk slot_stack.item _ (fun i hi2 => by
              rw [hsi] at hi2
              cases hi2
              omega))
          have hdec : stack_opt_within_max (some { held_stack with size := held_stack.size - 1 }) = true := by
            refine size_within_max_mk held_stack.item _ (fun i hi2 => ?_)
            have := (size_within_max_iff held_stack).mp hhsw i hi2
            omega
          split at hd
          · cases hd
            exact ⟨hcok, rfl⟩
          · cases hd
            exact ⟨hcok, hdec⟩
        · cases hd
          exact ⟨hc, hh⟩
    · cases hd
      exact ⟨hc, hh⟩
  · -- held occupied, slot empty
    rename_i held_stack hh0 hg
    have hhsw : held_stack.size_within_max = true := by
      unfold HeldItem.within_max at hh
      rw [hh0] at hh
      exact hh
    split at hd
    · -- held count > 1: place one unit
      rename_i hgt
      rw [Option.bind_eq_some] at hd
      obtain ⟨hi, hhi, hd⟩ := hd
      rw [Option.bind_eq_some] at hd
      obtain ⟨c2, hset, hd⟩ := hd
      obtain ⟨hlt, hc2⟩ := set_slot_eq_some _ _ _ _ hset
      subst hc2
      cases hd
      constructor
      · refine all_within_max_set c j _ hc ?_
        refine size_within_max_mk (some hi) 1 (fun i hi2 => ?_)
        cases hi2
        have := (size_within_max_iff held_stack).mp hhsw hi hhi
        omega
      · show stack_opt_within_max (some { held_stack with size := held_stack.size - 1 }) = true
        refine size_within_max_mk held_stack.item _ (fun i hi2 => ?_)
        have := (size_within_max_iff held_stack).mp hhsw i hi2
        omega
    · -- held count ≤ 1: place the whole stack
      rw [Option.bind_eq_some] at hd
      obtain ⟨c2, hset, hd⟩ := hd
      obtain ⟨hlt, hc2⟩ := set_slot_eq_some _ _ _ _ hset
      subst hc2
      cases hd
      exact ⟨all_within_max_set c j (some held_stack) hc hhsw, rfl⟩
  · -- both empty
    cases hd
    exact ⟨hc, hh⟩

theorem update_container_preserves (cm : ContainerManager) (t : ContainerType)
    (c : SlotContainer) (hcm : cm.all_within_max) (hc : c.all_within_max = true) :
    (cm.update_container t c).all_within_max := by
  intro t' c' hg
  unfold ContainerManager.update_container ContainerManager.insert_container at hg
  have hg' : (if t' = t then some c else cm.containers t') = some c' := hg
  by_cases he : t' = t
  · rw [if_pos he] at hg'
    cases hg'
    exact hc
  · rw [if_neg he] at hg'
    exact hcm t' c' hg'

theorem execute_distribution_aux_preserves (valid_slots : List (ContainerType × Nat)) :
    ∀ cm held per rem i n cm',
      (∀ k hi, held.item = some hi → items_for_slot per rem k ≤ hi.properties.max_stack_size) →
      cm.all_within_max →
      execute_distribution_aux cm held valid_slots per rem i = some (n, cm') →
      cm'.all_within_max := by
  induction valid_slots with
  | nil =>
      intro cm held per rem i n cm' _ hcm h
      unfold execute_distribution_aux at h
      cases h
      exact hcm
  | cons hd rest ih =>
      obtain ⟨t, j⟩ := hd
      intro cm held per rem i n cm' hamt hcm h
      unfold execute_distribution_aux at h
      simp only [Option.pure_def, Option.bind_eq_bind] at h
      split at h
      · exact ih cm held per rem (i + 1) n cm' hamt hcm h
      · rename_i container hg
        split at h
        · rw [Option.bind_eq_some] at h
          obtain ⟨hi, hhi, h⟩ := h
          rw [Option.bind_eq_some] at h
          obtain ⟨pr, hp, h⟩ := h
          obtain ⟨lo, c2⟩ := pr
          rw [Option.bind_eq_some] at h
          obtain ⟨⟨n2, cm2⟩, ha, h⟩ := h
          cases h
          have hcont : container.all_within_max = true := hcm t container hg
          have hoff : (ItemStack.new hi (items_for_slot per rem i)).size_within_max = true := by
            refine size_within_max_mk (some hi) _ (fun i2 hi2 => ?_)
            cases hi2
            exact hamt i hi hhi
          have hc2 := (place_stack_in_slot_preserves container j _ lo c2 hcont hoff hp).1
          exact ih (cm.update_container t c2) held per rem (i + 1) n2 cm2 hamt
            (update_container_preserves cm t c2 hcm hc2) ha
        · exact ih cm held per rem (i + 1) n cm' hamt hcm h

theorem update_held_preserves (hI : HeldItem) (hs : ItemStack) (n : Nat)
    (hh0 : hI.stack = some hs) (hok : hs.size_within_max = true) :
    (update_held_item_after_distribution hI hs.size n).within_max = true := by
  unfold update_held_item_after_distribution
  split
  · rfl
  · split
    · rename_i hs2 heq
      rw [hh0] at heq
      cases heq
      split
      · rfl
      · show stack_opt_within_max (some { hs with size := hs.size - n }) = true
        refine size_within_max_mk hs.item _ (fun i hi2 => ?_)
        have := (size_within_max_iff hs).mp hok i hi2
        omega
    · rfl

theorem distribute_items_evenly_preserves (cm : ContainerManager) (h : HeldItem)
    (ds : DragState) (cm' : ContainerManager) (h' : HeldItem)
    (hcm : cm.all_within_max) (hh : h.within_max = true)
    (hd : distribute_items_evenly cm h ds = some (cm', h')) :
    cm'.all_within_max ∧ h'.within_max = true := by
  unfold distribute_items_evenly at hd
  simp only [Option.pure_def, Option.bind_eq_bind] at hd
  split at hd
  · cases hd
    exact ⟨hcm, hh⟩
  · rename_i held_stack hh0
    have hhsw : held_stack.size_within_max = true := by
      unfold HeldItem.within_max at hh
      rw [hh0] at hh
      exact hh
    rw [Option.bind_eq_some] at hd
    obtain ⟨L, hL, hd⟩ := hd
    split at hd
    · cases hd
      exact ⟨hcm, hh⟩
    · rename_i hne
      rw [Option.bind_eq_some] at hd
      obtain ⟨⟨n, cm2⟩, hex, hd⟩ := hd
      cases hd
      have hNpos : 0 < L.length := by
        cases L with
        | nil => simp at hne
        | cons a l => simp
      have hamt : ∀ k hi, held_stack.item = some hi →
          items_for_slot (held_stack.size / L.length) (held_stack.size % L.length) k
            ≤ hi.properties.max_stack_size := by
        intro k hi hhi
        have hmax := (size_within_max_iff held_stack).mp hhsw hi hhi
        have hdm := Nat.div_add_mod held_stack.size L.length
        have hlem : held_stack.size / L.length ≤ L.length * (held_stack.size / L.length) :=
          Nat.le_mul_of_pos_left _ hNpos
        unfold items_for_slot
        split
        · omega
        · omega
      constructor
      · exact execute_distribution_aux_preserves L cm held_stack _ _ 0 n cm2 hamt hcm hex
      · exact update_held_preserves h held_stack n hh0 hhsw

theorem new_all_within_max (k : Nat) : (SlotContainer.new k).all_within_max = true := by
  unfold SlotContainer.all_within_max SlotContainer.new
  rw [List.all_eq_true]
  intro sl hmem
  have := List.eq_of_mem_replicate hmem
  subst this
  rfl

theorem defaultManager_all_within_max : ContainerManager.defaultManager.all_within_max := by
  intro t c hg
  have hg' : (if t = ContainerType.Chest 3 then some (SlotContainer.new 27)
      else if t = ContainerType.Chest 2 then some (SlotContainer.new 27)
      else if t = ContainerType.Chest 1 then some (SlotContainer.new 27)
      else if t = ContainerType.Hotbar then some (SlotContainer.new 9)
      else if t = ContainerType.PlayerInventory then some (SlotContainer.new 27)
      else none) = some c := hg
  split at hg'
  · cases hg'
    exact new_all_within_max 27
  · split at hg'
    · cases hg'
      exact new_all_within_max 27
    · split at hg'
      · cases hg'
        exact new_all_within_max 27
      · split at hg'
        · cases hg'
          exact new_all_within_max 9
        · split at hg'
          · cases hg'
            exact new_all_within_max 27
          · cases hg'

/-- C7: every mutating operation of the resolution engine preserves the
`count ≤ max_stack_size` invariant, assuming its input stacks satisfy it:
`try_merge` on both stacks, `place_stack_in_slot` on the container and the
returned leftover, `deposit_single_item`, `process_left_click`,
`process_right_click` on the container and the held stack, and
`distribute_items_evenly` on every container of the manager and the held
stack. -/
theorem C7_invariant_preservation :
    (∀ (s o : ItemStack) (b : Bool) (s' o' : ItemStack),
      s.size_within_max = true → o.size_within_max = true →
      s.try_merge o = some (b, s', o') →
      s'.size_within_max = true ∧ o'.size_within_max = true) ∧
    (∀ (c : SlotContainer) (j : Nat) (st : ItemStack) (lo : Option ItemStack)
        (c' : SlotContainer), c.all_within_max = true → st.size_within_max = true →
      place_stack_in_slot c j st = some (lo, c') →
      c'.all_within_max = true ∧ stack_opt_within_max lo = true) ∧
    (∀ (j : Nat) (c : SlotContainer) (h : HeldItem) (c' : SlotContainer) (h' : HeldItem),
      c.all_within_max = true → h.within_max = true →
      deposit_single_item j c h = some (c', h') →
      c'.all_within_max = true ∧ h'.within_max = true) ∧
    (∀ (j : Nat) (c : SlotContainer) (h : HeldItem) (c' : SlotContainer) (h' : HeldItem),
      c.all_within_max = true → h.within_max = true →
      process_left_click j c h = some (c', h') →
      c'.all_within_max = true ∧ h'.within_max = true) ∧
    (∀ (j : Nat) (c : SlotContainer) (h : HeldItem) (c' : SlotContainer) (h' : HeldItem),
      c.all_within_max = true → h.within_max = true →
      process_right_click j c h = some (c', h') →
      c'.all_within_max = true ∧ h'.within_max = true) ∧
    (∀ (cm : ContainerManager) (h : HeldItem) (ds : DragState)
        (cm' : ContainerManager) (h' : HeldItem),
      cm.all_within_max → h.within_max = true →
      distribute_items_evenly cm h ds = some (cm', h') →
      cm'.all_within_max ∧ h'.within_max = true) := by
  refine ⟨?_, ?_, ?_, ?_, ?_, ?_⟩
  · exact fun s o b s' o' => try_merge_preserves s o b s' o'
  · exact fun c j st lo c' => place_stack_in_slot_preserves c j st lo c'
  · exact fun j c h c' h' => deposit_single_item_preserves j c h c' h'
  · exact fun j c h c' h' => process_left_click_preserves j c h c' h'
  · exact fun j c h c' h' => process_right_click_preserves j c h c' h'
  · exact fun cm h ds cm' h' => distribute_items_evenly_preserves cm h ds cm' h'

/-- Witness for C7, exercising each operation on concrete well-formed
states: a partial merge of apples, a placement, a deposit, a left-click
pickup, a right-click split, and a 9-apple distribution over two empty
hotbar slots. -/
theorem C7_invariant_preservation_witness :
    (ItemStack.size_within_max { item := some testApple, size := 6 } = true ∧
      ItemStack.size_within_max { item := some testApple, size := 64 } = true) ∧
    (∃ c' h', process_left_click 0
        { slot_count := 1, slots := [{ stack := some (ItemStack.new testApple 7) }] }
        { stack := none } = some (c', h') ∧
      c'.all_within_max = true ∧ h'.within_max = true) ∧
    (∃ cm' h', distribute_items_evenly ContainerManager.defaultManager
        { stack := some (ItemStack.new testApple 9) }
        { left_drag_slots := [(ContainerType.Hotbar, 0), (ContainerType.Hotbar, 1)]
          pickup_slot := none } = some (cm', h') ∧
      cm'.all_within_max ∧ h'.within_max = true) := by
  refine ⟨?_, ?_, ?_⟩
  · exact C7_invariant_preservation.1 (ItemStack.new testApple 10) (ItemStack.new testApple 60)
      false { item := some testApple, size := 6 } { item := some testApple, size := 64 }
      (by decide) (by decide) (by decide)
  · cases hrun : process_left_click 0
        { slot_count := 1, slots := [{ stack := some (ItemStack.new testApple 7) }] }
        { stack := none } with
    | none =>
        have hne : (process_left_click 0
            { slot_count := 1, slots := [{ stack := some (ItemStack.new testApple 7) }] }
            { stack := none }).isSome = true := by decide
        rw [hrun] at hne
        cases hne
    | some r =>
        obtain ⟨c', h'⟩ := r
        have hres := C7_invariant_preservation.2.2.2.1 0
          { slot_count := 1, slots := [{ stack := some (ItemStack.new testApple 7) }] }
          { stack := none } c' h' (by decide) (by decide) hrun
        exact ⟨c', h', rfl, hres.1, hres.2⟩
  · cases hrun : distribute_items_evenly ContainerManager.defaultManager
        { stack := some (ItemStack.new testApple 9) }
        { left_drag_slots := [(ContainerType.Hotbar, 0), (ContainerType.Hotbar, 1)]
          pickup_slot := none } with
    | none =>
        have hne : (distribute_items_evenly ContainerManager.defaultManager
            { stack := some (ItemStack.new testApple 9) }
            { left_drag_slots := [(ContainerType.Hotbar, 0), (ContainerType.Hotbar, 1)]
              pickup_slot := none }).isSome = true := rfl
        rw [hrun] at hne
        cases hne
    | some r =>
        obtain ⟨cm', h'⟩ := r
        have hres := C7_invariant_preservation.2.2.2.2.2 ContainerManager.defaultManager
          { stack := some (ItemStack.new testApple 9) }
          { left_drag_slots := [(ContainerType.Hotbar, 0), (ContainerType.Hotbar, 1)]
            pickup_slot := none } cm' h'
          defaultManager_all_within_max (by decide) hrun
        exact ⟨cm', h', rfl, hres.1, hres.2⟩

/-! ### C10: unit conservation of click resolution -/

/-- Units of kind `k` carried by an optional stack. -/
def stack_count_of (k : Item) (o : Option ItemStack) : Nat :=
  match o with
  | some s => if s.item = some k then s.size else 0
  | none => 0

/-- Total units of kind `k` over all slots of a container. -/
def SlotContainer.units_of (c : SlotContainer) (k : Item) : Nat :=
  (c.slots.map (fun sl => stack_count_of k sl.stack)).sum

/-- Units of kind `k` on the cursor. -/
def HeldItem.units_of (h : HeldItem) (k : Item) : Nat :=
  stack_count_of k h.stack

/-- A well-formed present stack: item present, positive count, within max. -/
def ItemStack.wf (s : ItemStack) : Bool :=
  s.item.isSome && decide (0 < s.size) && s.size_within_max

/-- Optional-stack form of `ItemStack.wf`. -/
def slot_wf (o : Option ItemStack) : Bool :=
  match o with
  | some s => s.wf
  | none => true

theorem sum_map_set {α : Type} (f : α → Nat) (l : List α) :
    ∀ (i : Nat) (x a : α), l[i]? = some a →
      ((l.set i x).map f).sum + f a = (l.map f).sum + f x := by
  induction l with
  | nil =>
      intro i x a h
      simp at h
  | cons y ys ih =>
      intro i x a h
      cases i with
      | zero =>
          simp at h
          subst h
          simp only [List.set, List.map_cons, List.sum_cons]
          omega
      | succ n =>
          simp at h
          have := ih n x a h
          simp only [List.set, List.map_cons, List.sum_cons]
          omega

theorem units_of_set (c : SlotContainer) (j : Nat) (v : Option ItemStack)
    (a : Slot) (hj : c.slots[j]? = some a) (k : Item) :
    SlotContainer.units_of { c with slots := c.slots.set j { stack := v } } k
        + stack_count_of k a.stack
      = c.units_of k + stack_count_of k v := by
  unfold SlotContainer.units_of
  exact sum_map_set (fun sl => stack_count_of k sl.stack) c.slots j
    { stack := v } a hj

theorem can_merge_with_same_item (s o : ItemStack)
    (hm : s.can_merge_with o = some true) : s.item = o.item := by
  unfold ItemStack.can_merge_with at hm
  split at hm
  · simp at hm
    exact hm.1.1
  · cases hm

theorem try_merge_shape (s o : ItemStack) (b : Bool) (s' o' : ItemStack)
    (hm : s.can_merge_with o = some true)
    (h : s.try_merge o = some (b, s', o')) :
    s'.item = s.item ∧ o'.item = o.item ∧ s'.size + o'.size = s.size + o.size ∧
      (b = true → s'.size = 0) ∧ s.item = o.item := by
  have hitems : s.item = o.item := can_merge_with_same_item s o hm
  unfold ItemStack.try_merge at h
  simp only [Option.pure_def, Option.bind_eq_bind] at h
  rw [Option.bind_eq_some] at h
  obtain ⟨mb, hm2, h2⟩ := h
  rw [hm] at hm2
  cases hm2
  simp only [Bool.not_true, Bool.false_eq_true, if_false] at h2
  split at h2
  · cases h2
  · split at h2
    · cases h2
      refine ⟨rfl, rfl, ?_, fun _ => rfl, hitems⟩
      show 0 + (s.size + o.size) = s.size + o.size
      omega
    · cases h2
      refine ⟨rfl, rfl, ?_, ?_, hitems⟩
      · show s.size - min s.size _ + (o.size + min s.size _) = s.size + o.size
        omega
      · intro hb
        simp at hb

theorem slot_wf_some (s : ItemStack) (h : slot_wf (some s) = true) :
    (∃ i, s.item = some i) ∧ 0 < s.size ∧ s.size_within_max = true := by
  unfold slot_wf ItemStack.wf at h
  simp at h
  obtain ⟨⟨h1, h2⟩, h3⟩ := h
  exact ⟨Option.isSome_iff_exists.mp h1, h2, h3⟩

theorem process_left_click_conserves (j : Nat) (c : SlotContainer) (h : HeldItem)
    (hin : j < c.slots.length)
    (hwh : slot_wf h.stack = true)
    (hws : slot_wf (c.get_slot j) = true) :
    ∃ c' h', process_left_click j c h = some (c', h') ∧
      ∀ k, c'.units_of k + h'.units_of k = c.units_of k + h.units_of k := by
  cases hsl : c.slots[j]? with
  | none =>
      exfalso
      rw [List.getElem?_eq_none_iff] at hsl
      omega
  | some a =>
  have hga : c.get_slot j = a.stack := by
    unfold SlotContainer.get_slot
    rw [hsl]
    rfl
  have hHeq : ∀ st, h.stack = st → h = { stack := st } := by
    intro st hst
    cases h
    simp_all
  cases hh0 : h.stack with
  | none =>
      rw [hHeq none hh0] at hwh ⊢
      cases has : a.stack with
      | none =>
          have hget : c.get_slot j = none := by rw [hga, has]
          refine ⟨c, { stack := none }, ?_, ?_⟩
          · simp [process_left_click, take_slot_get_none c j hget]
          · intro k
            rfl
      | some s =>
          have hget : c.get_slot j = some s := by rw [hga, has]
          refine ⟨{ c with slots := c.slots.set j { stack := none } }, { stack := some s },
            ?_, ?_⟩
          · simp [process_left_click, take_slot_of_get_some c j s hget]
          · intro k
            have hset := units_of_set c j none a hsl k
            rw [has] at hset
            simp only [HeldItem.units_of, stack_count_of] at hset ⊢
            omega
  | some hs =>
      rw [hHeq (some hs) hh0] at hwh ⊢
      obtain ⟨⟨hi, hhi⟩, hpos, hmax⟩ := slot_wf_some hs hwh
      cases has : a.stack with
      | none =>
          have hget : c.get_slot j = none := by rw [hga, has]
          refine ⟨{ c with slots := c.slots.set j { stack := some hs } }, { stack := none },
            ?_, ?_⟩
          · simp [process_left_click, take_slot_get_none c j hget,
              SlotContainer.set_slot, hin]
          · intro k
            have hset := units_of_set c j (some hs) a hsl k
            rw [has] at hset
            simp only [HeldItem.units_of, stack_count_of] at hset ⊢
            omega
      | some cs =>
          have hget : c.get_slot j = some cs := by rw [hga, has]
          rw [hga, has] at hws
          obtain ⟨⟨ci, hci⟩, hcpos, hcmax⟩ := slot_wf_some cs hws
          cases hm : hs.can_merge_with cs with
          | none =>
              exfalso
              simp [ItemStack.can_merge_with, hhi, hci] at hm
          | some b =>
          cases b with
          | false =>
              refine ⟨{ c with slots := c.slots.set j { stack := some hs } },
                { stack := some cs }, ?_, ?_⟩
              · simp [process_left_click, take_slot_of_get_some c j cs hget, hm,
                  SlotContainer.set_slot, List.length_set, hin, List.set_set]
              · intro k
                have hset := units_of_set c j (some hs) a hsl k
                rw [has] at hset
                simp only [HeldItem.units_of, stack_count_of] at hset ⊢
                omega
          | true =>
              cases htm : hs.try_merge cs with
              | none =>
                  exfalso
                  unfold ItemStack.try_merge at htm
                  simp only [Option.pure_def, Option.bind_eq_bind, hm, Option.some_bind,
                    Bool.not_true, Bool.false_eq_true, if_false] at htm
                  split at htm
                  · rename_i heq
                    rw [hci] at heq
                    cases heq
                  · split at htm
                    · cases htm
                    · cases htm
              | some tr =>
                  obtain ⟨full, hsA, csA⟩ := tr
                  obtain ⟨hA1, hA2, hA3, hA4, hA5⟩ := try_merge_shape hs cs full hsA csA hm htm
                  have hcsk : cs.item = some hi := by rw [← hA5, hhi]
                  have hcsAk : csA.item = some hi := by rw [hA2, hcsk]
                  have hhsAk : hsA.item = some hi := by rw [hA1, hhi]
                  have hset0 : ∀ k, SlotContainer.units_of
                      { c with slots := c.slots.set j { stack := some csA } } k
                        + stack_count_of k (some cs)
                      = c.units_of k + stack_count_of k (some csA) := by
                    intro k
                    have hset := units_of_set c j (some csA) a hsl k
                    rw [has] at hset
                    exact hset
                  cases full with
                  | true =>
                      have h0 : hsA.size = 0 := hA4 rfl
                      refine ⟨{ c with slots := c.slots.set j { stack := some csA } },
                        { stack := none }, ?_, ?_⟩
                      · simp [process_left_click, take_slot_of_get_some c j cs hget, hm,
                          htm, SlotContainer.set_slot, List.length_set, hin, List.set_set]
                      · intro k
                        have hset := hset0 k
                        by_cases hk : hi = k
                        · subst hk
                          simp only [HeldItem.units_of] at hset ⊢
                          simp [stack_count_of, hcsk, hcsAk, hhi] at hset ⊢
                          omega
                        · simp only [HeldItem.units_of] at hset ⊢
                          simp [stack_count_of, hcsk, hcsAk, hhi, hk] at hset ⊢
                          omega
                  | false =>
                      refine ⟨{ c with slots := c.slots.set j { stack := some csA } },
                        { stack := some hsA }, ?_, ?_⟩
                      · simp [process_left_click, take_slot_of_get_some c j cs hget, hm,
                          htm, SlotContainer.set_slot, List.length_set, hin, List.set_set]
                      · intro k
                        have hset := hset0 k
                        by_cases hk : hi = k
                        · subst hk
                          simp only [HeldItem.units_of] at hset ⊢
                          simp [stack_count_of, hcsk, hcsAk, hhsAk, hhi] at hset ⊢
                          omega
                        · simp only [HeldItem.units_of] at hset ⊢
                          simp [stack_count_of, hcsk, hcsAk, hhsAk, hhi, hk] at hset ⊢
                          omega

theorem process_right_click_conserves (j : Nat) (c : SlotContainer) (h : HeldItem)
    (hin : j < c.slots.length)
    (hwh : slot_wf h.stack = true)
    (hws : slot_wf (c.get_slot j) = true) :
    ∃ c' h', process_right_click j c h = some (c', h') ∧
      ∀ k, c'.units_of k + h'.units_of k = c.units_of k + h.units_of k := by
  cases hsl : c.slots[j]? with
  | none =>
      exfalso
      rw [List.getElem?_eq_none_iff] at hsl
      omega
  | some a =>
  have hga : c.get_slot j = a.stack := by
    unfold SlotContainer.get_slot
    rw [hsl]
    rfl
  have hHeq : ∀ st, h.stack = st → h = { stack := st } := by
    intro st hst
    cases h
    simp_all
  cases hh0 : h.stack with
  | none =>
      rw [hHeq none hh0] at hwh ⊢
      cases has : a.stack with
      | none =>
          have hget : c.get_slot j = none := by rw [hga, has]
          exact ⟨c, { stack := none }, by simp [process_right_click, hget],
            fun k => rfl⟩
      | some cs =>
          have hget : c.get_slot j = some cs := by rw [hga, has]
          rw [hga, has] at hws
          obtain ⟨⟨ci, hci⟩, hcpos, hcmax⟩ := slot_wf_some cs hws
          by_cases hone : cs.size ≤ 1
          · refine ⟨{ c with slots := c.slots.set j { stack := none } },
              { stack := some cs }, ?_, ?_⟩
            · simp [process_right_click, hget, ItemStack.split_half, hone,
                take_slot_of_get_some c j cs hget]
            · intro k
              have hset := units_of_set c j none a hsl k
              rw [has] at hset
              simp only [HeldItem.units_of, stack_count_of] at hset ⊢
              omega
          · refine ⟨{ c with slots := c.slots.set j { stack := some { cs with size := cs.size - cs.size / 2 } } }, { stack := some { item := cs.item, size := cs.size / 2 } }, ?_, ?_⟩
            · simp [process_right_click, hget, ItemStack.split_half, hone,
                SlotContainer.set_slot, hin]
            · intro k
              have hset := units_of_set c j
                (some { cs with size := cs.size - cs.size / 2 }) a hsl k
              rw [has] at hset
              by_cases hk : ci = k
              · subst hk
                simp only [HeldItem.units_of] at hset ⊢
                simp [stack_count_of, hci] at hset ⊢
                omega
              · simp only [HeldItem.units_of] at hset ⊢
                simp [stack_count_of, hci, hk] at hset ⊢
                omega
  | some hs =>
      rw [hHeq (some hs) hh0] at hwh ⊢
      obtain ⟨⟨hi, hhi⟩, hpos, hmax⟩ := slot_wf_some hs hwh
      cases has : a.stack with
      | none =>
          have hget : c.get_slot j = none := by rw [hga, has]
          by_cases hgt : hs.size > 1
          · refine ⟨{ c with slots := c.slots.set j { stack := some (ItemStack.new hi 1) } },
              { stack := some { hs with size := hs.size - 1 } }, ?_, ?_⟩
            · simp [process_right_click, hget, hgt, hhi, SlotContainer.set_slot, hin]
            · intro k
              have hset := units_of_set c j (some (ItemStack.new hi 1)) a hsl k
              rw [has] at hset
              by_cases hk : hi = k
              · subst hk
                simp only [HeldItem.units_of] at hset ⊢
                simp [stack_count_of, hhi, ItemStack.new] at hset ⊢
                omega
              · simp only [HeldItem.units_of] at hset ⊢
                simp [stack_count_of, hhi, hk, ItemStack.new] at hset ⊢
                omega
          · refine ⟨{ c with slots := c.slots.set j { stack := some hs } },
              { stack := none }, ?_, ?_⟩
            · simp [process_right_click, hget, hgt, SlotContainer.set_slot, hin]
            · intro k
              have hset := units_of_set c j (some hs) a hsl k
              rw [has] at hset
              simp only [HeldItem.units_of, stack_count_of] at hset ⊢
              omega
      | some cs =>
          have hget : c.get_slot j = some cs := by rw [hga, has]
          rw [hga, has] at hws
          obtain ⟨⟨ci, hci⟩, hcpos, hcmax⟩ := slot_wf_some cs hws
          cases hm : hs.can_merge_with cs with
          | none =>
              exfalso
              simp [ItemStack.can_merge_with, hhi, hci] at hm
          | some b =>
          cases b with
          | false =>
              exact ⟨c, { stack := some hs },
                by simp [process_right_click, hget, hm], fun k => rfl⟩
          | true =>
              have hsame : hs.item = cs.item := can_merge_with_same_item hs cs hm
              have hcieq : ci = hi := by
                rw [hhi, hci] at hsame
                cases hsame
                rfl
              subst hcieq
              by_cases hlt : cs.size < ci.properties.max_stack_size
              · have hset := units_of_set c j
                  (some { cs with size := cs.size + 1 }) a hsl
                by_cases honez : hs.size = 1
                · refine ⟨{ c with slots := c.slots.set j { stack := some { cs with size := cs.size + 1 } } }, { stack := none }, ?_, ?_⟩
                  · simp [process_right_click, hget, hm, hci, hlt, hpos, honez,
                      SlotContainer.set_slot, hin]
                  · intro k
                    have hsetk := hset k
                    rw [has] at hsetk
                    by_cases hk : ci = k
                    · subst hk
                      simp only [HeldItem.units_of] at hsetk ⊢
                      simp [stack_count_of, hci, hhi] at hsetk ⊢
                      omega
                    · simp only [HeldItem.units_of] at hsetk ⊢
                      simp [stack_count_of, hci, hhi, hk] at hsetk ⊢
                      omega
                · refine ⟨{ c with slots := c.slots.set j { stack := some { cs with size := cs.size + 1 } } }, { stack := some { hs with size := hs.size - 1 } }, ?_, ?_⟩
                  · have hnz : ¬ hs.size - 1 = 0 := by omega
                    simp [process_right_click, hget, hm, hci, hlt, hpos, honez,
                      SlotContainer.set_slot, hin, hnz]
                  · intro k
                    have hsetk := hset k
                    rw [has] at hsetk
                    by_cases hk : ci = k
                    · subst hk
                      simp only [HeldItem.units_of] at hsetk ⊢
                      simp [stack_count_of, hci, hhi] at hsetk ⊢
                      omega
                    · simp only [HeldItem.units_of] at hsetk ⊢
                      simp [stack_count_of, hci, hhi, hk] at hsetk ⊢
                      omega
              · exact ⟨c, { stack := some hs },
                  by simp [process_right_click, hget, hm, hci, hlt],
                  fun k => rfl⟩

theorem deposit_single_item_conserves (j : Nat) (c : SlotContainer) (h : HeldItem)
    (hin : j < c.slots.length)
    (hwh : slot_wf h.stack = true)
    (hws : slot_wf (c.get_slot j) = true) :
    ∃ c' h', deposit_single_item j c h = some (c', h') ∧
      ∀ k, c'.units_of k + h'.units_of k = c.units_of k + h.units_of k := by
  cases hsl : c.slots[j]? with
  | none =>
      exfalso
      rw [List.getElem?_eq_none_iff] at hsl
      omega
  | some a =>
  have hga : c.get_slot j = a.stack := by
    unfold SlotContainer.get_slot
    rw [hsl]
    rfl
  have hHeq : ∀ st, h.stack = st → h = { stack := st } := by
    intro st hst
    cases h
    simp_all
  cases hh0 : h.stack with
  | none =>
      rw [hHeq none hh0] at hwh ⊢
      exact ⟨c, { stack := none }, by simp [deposit_single_item], fun k => rfl⟩
  | some hs =>
      rw [hHeq (some hs) hh0] at hwh ⊢
      obtain ⟨⟨hi, hhi⟩, hpos, hmax⟩ := slot_wf_some hs hwh
      have hnz0 : ¬ hs.size = 0 := by omega
      cases has : a.stack with
      | none =>
          have hget : c.get_slot j = none := by rw [hga, has]
          by_cases honez : hs.size = 1
          · refine ⟨{ c with slots := c.slots.set j { stack := some (ItemStack.new hi 1) } }, { stack := none }, ?_, ?_⟩
            · simp [deposit_single_item, hnz0, hget, hhi, SlotContainer.set_slot,
                hin, honez]
            · intro k
              have hset := units_of_set c j (some (ItemStack.new hi 1)) a hsl k
              rw [has] at hset
              by_cases hk : hi = k
              · subst hk
                simp only [HeldItem.units_of] at hset ⊢
                simp [stack_count_of, hhi, ItemStack.new] at hset ⊢
                omega
              · simp only [HeldItem.units_of] at hset ⊢
                simp [stack_count_of, hhi, hk, ItemStack.new] at hset ⊢
                omega
          · refine ⟨{ c with slots := c.slots.set j { stack := some (ItemStack.new hi 1) } }, { stack := some { hs with size := hs.size - 1 } }, ?_, ?_⟩
            · have hnz : ¬ hs.size - 1 = 0 := by omega
              simp [deposit_single_item, hnz0, hget, hhi, SlotContainer.set_slot,
                hin, honez, hnz]
            · intro k
              have hset := units_of_set c j (some (ItemStack.new hi 1)) a hsl k
              rw [has] at hset
              by_cases hk : hi = k
              · subst hk
                simp only [HeldItem.units_of] at hset ⊢
                simp [stack_count_of, hhi, ItemStack.new] at hset ⊢
                omega
              · simp only [HeldItem.units_of] at hset ⊢
                simp [stack_count_of, hhi, hk, ItemStack.new] at hset ⊢
                omega
      | some cs =>
          have hget : c.get_slot j = some cs := by rw [hga, has]
          rw [hga, has] at hws
          obtain ⟨⟨ci, hci⟩, hcpos, hcmax⟩ := slot_wf_some cs hws
          cases hm : hs.can_merge_with cs with
          | none =>
              exfalso
              simp [ItemStack.can_merge_with, hhi, hci] at hm
          | some b =>
          cases b with
          | false =>
              exact ⟨c, { stack := some hs },
                by simp [deposit_single_item, hnz0, hget, hm], fun k => rfl⟩
          | true =>
              have hsame : hs.item = cs.item := can_merge_with_same_item hs cs hm
              have hcieq : ci = hi := by
                rw [hhi, hci] at hsame
                cases hsame
                rfl
              subst hcieq
              by_cases hlt : cs.size < ci.properties.max_stack_size
              · by_cases honez : hs.size = 1
                · refine ⟨{ c with slots := c.slots.set j { stack := some { cs with size := cs.size + 1 } } }, { stack := none }, ?_, ?_⟩
                  · simp [deposit_single_item, hnz0, hget, hm, hci, hlt,
                      SlotContainer.set_slot, hin, honez]
                  · intro k
                    have hset := units_of_set c j
                      (some { cs with size := cs.size + 1 }) a hsl k
                    rw [has] at hset
                    by_cases hk : ci = k
                    · subst hk
                      simp only [HeldItem.units_of] at hset ⊢
                      simp [stack_count_of, hci, hhi] at hset ⊢
                      omega
                    · simp only [HeldItem.units_of] at hset ⊢
                      simp [stack_count_of, hci, hhi, hk] at hset ⊢
                      omega
                · refine ⟨{ c with slots := c.slots.set j { stack := some { cs with size := cs.size + 1 } } }, { stack := some { hs with size := hs.size - 1 } }, ?_, ?_⟩
                  · have hnz : ¬ hs.size - 1 = 0 := by omega
                    simp [deposit_single_item, hnz0, hget, hm, hci, hlt,
                      SlotContainer.set_slot, hin, honez, hnz]
                  · intro k
                    have hset := units_of_set c j
                      (some { cs with size := cs.size + 1 }) a hsl k
                    rw [has] at hset
                    by_cases hk : ci = k
                    · subst hk
                      simp only [HeldItem.units_of] at hset ⊢
                      simp [stack_count_of, hci, hhi] at hset ⊢
                      omega
                    · simp only [HeldItem.units_of] at hset ⊢
                      simp [stack_count_of, hci, hhi, hk] at hset ⊢
                      omega
              · exact ⟨c, { stack := some hs },
                  by simp [deposit_single_item, hnz0, hget, hm, hci, hlt],
                  fun k => rfl⟩

/-- C10: for an in-range slot index and well-formed input stacks (present
stacks have an item, a positive count, and respect the max), each of
`process_left_click`, `process_right_click` and `deposit_single_item`
completes and, for every item kind, the total units in the container plus
the cursor are the same before and after the call. -/
theorem C10_unit_conservation (j : Nat) (c : SlotContainer) (h : HeldItem)
    (hin : j < c.slots.length)
    (hwh : slot_wf h.stack = true)
    (hws : slot_wf (c.get_slot j) = true) :
    (∃ c' h', process_left_click j c h = some (c', h') ∧
      ∀ k, c'.units_of k + h'.units_of k = c.units_of k + h.units_of k) ∧
    (∃ c' h', process_right_click j c h = some (c', h') ∧
      ∀ k, c'.units_of k + h'.units_of k = c.units_of k + h.units_of k) ∧
    (∃ c' h', deposit_single_item j c h = some (c', h') ∧
      ∀ k, c'.units_of k + h'.units_of k = c.units_of k + h.units_of k) :=
  ⟨process_left_click_conserves j c h hin hwh hws,
   process_right_click_conserves j c h hin hwh hws,
   deposit_single_item_conserves j c h hin hwh hws⟩

/-- Witness for C10: 10 held apples left-clicked, right-clicked, or
single-deposited onto a slot of 60 apples (max 64) conserve the apple total
70 between slot and cursor. -/
theorem C10_unit_conservation_witness :
    (∃ c' h', process_left_click 0
        { slot_count := 1, slots := [{ stack := some (ItemStack.new testApple 60) }] }
        { stack := some (ItemStack.new testApple 10) } = some (c', h') ∧
      ∀ k, c'.units_of k + h'.units_of k
        = SlotContainer.units_of { slot_count := 1, slots := [{ stack := some (ItemStack.new testApple 60) }] } k
          + HeldItem.units_of { stack := some (ItemStack.new testApple 10) } k) ∧
    (∃ c' h', process_right_click 0
        { slot_count := 1, slots := [{ stack := some (ItemStack.new testApple 60) }] }
        { stack := some (ItemStack.new testApple 10) } = some (c', h') ∧
      ∀ k, c'.units_of k + h'.units_of k
        = SlotContainer.units_of { slot_count := 1, slots := [{ stack := some (ItemStack.new testApple 60) }] } k
          + HeldItem.units_of { stack := some (ItemStack.new testApple 10) } k) ∧
    (∃ c' h', deposit_single_item 0
        { slot_count := 1, slots := [{ stack := some (ItemStack.new testApple 60) }] }
        { stack := some (ItemStack.new testApple 10) } = some (c', h') ∧
      ∀ k, c'.units_of k + h'.units_of k
        = SlotContainer.units_of { slot_count := 1, slots := [{ stack := some (ItemStack.new testApple 60) }] } k
          + HeldItem.units_of { stack := some (ItemStack.new testApple 10) } k) :=
  C10_unit_conservation 0
    { slot_count := 1, slots := [{ stack := some (ItemStack.new testApple 60) }] }
    { stack := some (ItemStack.new testApple 10) }
    (by decide) (by decide) (by decide)

end Opentale
